import Mathlib

/-!
Verification of the vanilla-signals reactive dependency-tracking runtime.

The repository contains two near-duplicate implementations of the core
reactive graph:

* `src/reactive/index.ts` (called variant A below): `subscribe` always adds a
  fresh `WeakRef`, `unsubscribe` deletes the first matching reference, and
  `EffectNode` has no `destroyed` flag;
* the unnamed file `part_000` (called variant B below): `subscribe`
  deduplicates by identity, `unsubscribe` deletes every matching reference,
  and `EffectNode` carries a `destroyed` flag with a `destroy()` method.

Both are embedded below over a single state type, with a `Variant` parameter
selecting the implementation at each point where the two files differ.

Modelling conventions:
* nodes are identified by natural numbers; a static environment
  `Nat → Kind` says whether a node is a `WritableNode`, a `ComputedNode`
  (with its computation function) or an `EffectNode` (with its effect
  function);
* JavaScript `Set<WeakRef<ReactiveNode>>` becomes `List Nat` in insertion
  order (every weak reference is taken to be live: garbage collection is not
  modelled, so the lazy pruning branches of the source never fire);
* JavaScript `Set<ReactiveNode>` (`deps`, `ctxDeps`) becomes `List Nat` in
  insertion order with deduplicating insertion, matching `Set.add`;
* computation/effect functions are caller-supplied closures in the source;
  they are embedded as a small expression language `Expr` whose evaluation
  reads other nodes through the tracked `getValue` protocol, and which can
  also raise an exception (`Expr.throwE`), since the source does not guard
  against user functions throwing;
* exceptions are threaded as `Option`: a `none` result means the evaluation
  raised, and the state accumulated up to the raise is kept (mutations
  performed before a JavaScript throw persist);
* `queueMicrotask` becomes appending the effect's id to a task queue in the
  state; `flush` runs the queue in FIFO order, modelling a microtask
  checkpoint;
* `runCount` is ghost instrumentation counting how many times each node's
  computation/effect function has been entered; no source behaviour depends
  on it;
* recursion in `markAsDisty` and in nested evaluation is bounded by an
  explicit fuel parameter; fuel exhaustion returns the state unchanged, and
  every concrete scenario below is run with ample fuel.
-/

/-- Pointwise update of a map from node ids. -/
def upd {α : Type} (f : Nat → α) (i : Nat) (a : α) : Nat → α :=
  fun j => if j = i then a else f j

@[simp] theorem upd_same {α : Type} (f : Nat → α) (i : Nat) (a : α) :
    upd f i a i = a := by
  simp [upd]

theorem upd_other {α : Type} (f : Nat → α) (i j : Nat) (a : α) (h : j ≠ i) :
    upd f i a j = f j := by
  simp [upd, h]

/-- Number of occurrences of a node id in a subscriber/queue list. -/
def countOcc (x : Nat) : List Nat → Nat
  | [] => 0
  | y :: l => (if y = x then 1 else 0) + countOcc x l

/-- Delete the first occurrence of a node id, as variant A `unsubscribe`
does via `find` followed by `delete`. -/
def eraseFirst (x : Nat) : List Nat → List Nat
  | [] => []
  | y :: l => if y = x then l else y :: eraseFirst x l

/-- Delete every occurrence of a node id, as variant B `unsubscribe` does
via `forEach` followed by `delete`. -/
def removeAll (x : Nat) : List Nat → List Nat
  | [] => []
  | y :: l => if y = x then removeAll x l else y :: removeAll x l

/-- JavaScript `Set.add`: append unless already present. -/
def setInsert (l : List Nat) (x : Nat) : List Nat :=
  if x ∈ l then l else l ++ [x]

/-- Keep the elements of the second list that are not members of `excl`. -/
def notInFilter (excl : List Nat) : List Nat → List Nat
  | [] => []
  | y :: l => if y ∈ excl then notInFilter excl l else y :: notInFilter excl l

/-- Keep the elements of the second list that are members of `keep`. -/
def inFilter (keep : List Nat) : List Nat → List Nat
  | [] => []
  | y :: l => if y ∈ keep then y :: inFilter keep l else inFilter keep l

/-- Which of the two source files an operation is taken from. -/
inductive Variant where
  | vA  -- src/reactive/index.ts
  | vB  -- the unnamed near-duplicate with dedup and destroy
deriving DecidableEq

/-- Caller-supplied computation/effect function bodies. Reads go through the
tracked getter of the node being read; `throwE` models the user function
raising an exception. -/
inductive Expr where
  | lit (n : Int)
  | readN (id : Nat)
  | add (a b : Expr)
  | iteNZ (c t e : Expr)
  | throwE
deriving DecidableEq

/-- Static classification of a node id: `WritableNode`, `ComputedNode`
(with its computation function) or `EffectNode` (with its effect
function). -/
inductive Kind where
  | writable
  | computed (body : Expr)
  | effect (body : Expr)
deriving DecidableEq

/-- The mutable state of the whole reactive graph: per-node fields of
`ReactiveNode` and its subclasses, the module-global evaluation `context`,
the microtask queue, and the ghost run counter. -/
structure St where
  context : Option Nat
  value : Nat → Int
  cvalue : Nat → Option Int
  dirty : Nat → Bool
  subs : Nat → List Nat
  deps : Nat → List Nat
  ctxDeps : Nat → List Nat
  taskScheduled : Nat → Bool
  destroyed : Nat → Bool
  queue : List Nat
  runCount : Nat → Nat

/-- Fresh state: `context = NONE`, all node sets empty, all flags false,
computed caches at the `NONE` sentinel, with given initial writable
values. -/
def initSt (vals : Nat → Int) : St :=
  { context := none
    value := vals
    cvalue := fun _ => none
    dirty := fun _ => false
    subs := fun _ => []
    deps := fun _ => []
    ctxDeps := fun _ => []
    taskScheduled := fun _ => false
    destroyed := fun _ => false
    queue := []
    runCount := fun _ => 0 }

/-- ReactiveNode.subscribe: variant A `this.subs.add(new WeakRef(sub))`
always adds a fresh weak reference; variant B first checks whether some
existing reference dereferences to `sub`. -/
def subscribeL : Variant → List Nat → Nat → List Nat
  | .vA, l, sub => l ++ [sub]
  | .vB, l, sub => if sub ∈ l then l else l ++ [sub]

/-- ReactiveNode.unsubscribe: variant A deletes the first reference that
dereferences to `sub`; variant B deletes every such reference. -/
def unsubscribeL : Variant → List Nat → Nat → List Nat
  | .vA, l, sub => eraseFirst sub l
  | .vB, l, sub => removeAll sub l

/-- ReactiveNode.addAsSub: if the evaluation context is `NONE` do nothing;
otherwise subscribe the active evaluator to this node and record this node
in the evaluator's `ctxDeps`. -/
def addAsSub (V : Variant) (id : Nat) (s : St) : St :=
  match s.context with
  | none => s
  | some ctx =>
    { s with
      subs := upd s.subs id (subscribeL V (s.subs id) ctx)
      ctxDeps := upd s.ctxDeps ctx (setInsert (s.ctxDeps ctx) id) }

/-- EffectNode.markAsDisty guard: variant A returns early when
`taskScheduled`; variant B also when `destroyed`. -/
def effectGuard : Variant → St → Nat → Bool
  | .vA, s, id => s.taskScheduled id
  | .vB, s, id => s.taskScheduled id || s.destroyed id

/-- markAsDisty, dispatched on the node's class. For an `EffectNode` (the
override): early-return on the guard, otherwise `queueMicrotask` the rerun
and set `taskScheduled`. For any other node (the base method): early-return
when already dirty, otherwise set `dirty` and recurse into every subscriber.
The recursion is bounded by fuel; fuel 0 returns the state unchanged. -/
def markDirty (V : Variant) (env : Nat → Kind) : Nat → Nat → St → St
  | 0 => fun _ s => s
  | fuel + 1 => fun id s =>
    match env id with
    | .effect _ =>
      if effectGuard V s id then s
      else
        { s with
          queue := s.queue ++ [id]
          taskScheduled := upd s.taskScheduled id true }
    | _ =>
      if s.dirty id then s
      else
        let s₁ := { s with dirty := upd s.dirty id true }
        (s₁.subs id).foldl (fun t j => markDirty V env fuel j t) s₁

/-- WritableNode.setValue: store the value, then markAsDisty every live
subscriber. -/
def setValue (V : Variant) (env : Nat → Kind) (fuel : Nat) (id : Nat)
    (v : Int) (s : St) : St :=
  let s₁ := { s with value := upd s.value id v }
  (s₁.subs id).foldl (fun t j => markDirty V env fuel j t) s₁

/-- WritableNode.getValue: register as dependency of the current evaluator,
then return the stored value. -/
def writableGet (V : Variant) (id : Nat) (s : St) : Int × St :=
  let s₁ := addAsSub V id s
  (s₁.value id, s₁)

/-- Default `opts.equal`, `Object.is`, on the modelled integer values. -/
def objectIs (a b : Int) : Bool := a == b

/-- The `set` method produced by the `Signal` factory:
`if (!opts.equal(node.getValue(), value)) node.setValue(value)`. Note the
current value is obtained through the tracked `getValue`, so `addAsSub`
runs even when the equality gate then suppresses the write. -/
def signalSet (equal : Int → Int → Bool) (V : Variant) (env : Nat → Kind)
    (fuel : Nat) (id : Nat) (v : Int) (s : St) : St :=
  let s₁ := addAsSub V id s
  if equal (s₁.value id) v then s₁ else setValue V env fuel id v s₁

/-- Call `dep.unsubscribe(node)` on each node of the list, as the pruning
loop of `compute`/`runEffect` and the teardown loop of `destroy` do. -/
def unsubAll (V : Variant) (id : Nat) (l : List Nat) (s : St) : St :=
  l.foldl (fun t d => { t with subs := upd t.subs d (unsubscribeL V (t.subs d) id) }) s

/-- The dependency reconciliation block shared by ComputedNode.compute and
EffectNode.runEffect: drop previous `deps` not in `ctxDeps` (unsubscribing
from each), add `ctxDeps` not already in the pruned `deps`, clear
`ctxDeps`. -/
def reconcile (V : Variant) (id : Nat) (s : St) : St :=
  let ds := s.deps id
  let cds := s.ctxDeps id
  let removed := notInFilter cds ds
  let kept := inFilter cds ds
  let s₁ := unsubAll V id removed s
  { s₁ with
    deps := upd s₁.deps id (kept ++ notInFilter kept cds)
    ctxDeps := upd s₁.ctxDeps id [] }

/-- Exception-propagating sequencing: when the first step raised, the rest
is skipped and the exception propagates with the state left as it was at the
raise; otherwise the continuation runs on the value and state. -/
def exBind (r : Option Int × St) (k : Int → St → Option Int × St) :
    Option Int × St :=
  match r with
  | (none, s) => (none, s)
  | (some v, s) => k v s

/-- ComputedNode.compute / EffectNode.runEffect, parametrised by the
evaluator used for the body: save the context, install this node as the
context, enter the computation function (counted by the ghost `runCount`),
and on normal return reconcile dependencies and restore the context. When
the body throws, the source has no try/finally: reconciliation, the
`ctxDeps` clear and the context restore are all skipped and the exception
propagates. -/
def computeWith (V : Variant) (ev : Expr → St → Option Int × St) (id : Nat)
    (b : Expr) (s : St) : Option Int × St :=
  let prevCtx := s.context
  let s₁ := { s with
    context := some id
    runCount := upd s.runCount id (s.runCount id + 1) }
  exBind (ev b s₁) (fun v s₂ =>
    let s₃ := reconcile V id s₂
    (some v, { s₃ with context := prevCtx }))

/-- Evaluation of a computation/effect body, parametrised by the tracked
getter used for reads. Evaluation is left-to-right and an exception aborts
the rest of the expression, keeping the state mutated so far. -/
def evalExprWith (gv : Nat → St → Option Int × St) : Expr → St → Option Int × St
  | .lit n, s => (some n, s)
  | .throwE, s => (none, s)
  | .readN id, s => gv id s
  | .add a b, s =>
    exBind (evalExprWith gv a s) (fun x s₁ =>
      exBind (evalExprWith gv b s₁) (fun y s₂ => (some (x + y), s₂)))
  | .iteNZ c t e, s =>
    exBind (evalExprWith gv c s) (fun x s₁ =>
      if x ≠ 0 then evalExprWith gv t s₁ else evalExprWith gv e s₁)

/-- The tracked getter for an arbitrary node id, by class. For a
`WritableNode`: `addAsSub` then the stored value. For a `ComputedNode`:
`addAsSub`; recompute when the cache is the `NONE` sentinel or the node is
dirty, store the result and clear `dirty` (skipped when the computation
throws); otherwise return the cache. Effects are never read. Nested
recomputation consumes one unit of fuel per level; at fuel 0 the read
returns a junk value with the state unchanged. -/
def getValueAny (V : Variant) (env : Nat → Kind) : Nat → Nat → St → Option Int × St
  | 0 => fun _ s => (some 0, s)
  | fuel + 1 => fun id s =>
    match env id with
    | .writable =>
      let s₁ := addAsSub V id s
      (some (s₁.value id), s₁)
    | .computed b =>
      let s₁ := addAsSub V id s
      if (s₁.cvalue id).isNone || s₁.dirty id then
        exBind (computeWith V (evalExprWith (getValueAny V env fuel)) id b s₁)
          (fun v s₂ =>
            (some v,
              { s₂ with
                cvalue := upd s₂.cvalue id (some v)
                dirty := upd s₂.dirty id false }))
      else (s₁.cvalue id, s₁)
    | .effect _ => (some 0, s)

/-- Body evaluation at a given fuel level. -/
def evalExpr (V : Variant) (env : Nat → Kind) (fuel : Nat) :
    Expr → St → Option Int × St :=
  evalExprWith (getValueAny V env fuel)

/-- ComputedNode.compute at a given fuel level. -/
def compute (V : Variant) (env : Nat → Kind) (fuel : Nat) (id : Nat)
    (b : Expr) (s : St) : Option Int × St :=
  computeWith V (evalExpr V env fuel) id b s

/-- EffectNode.runEffect: textually identical to ComputedNode.compute in the
source, with the returned value discarded by the caller. -/
def runEffect (V : Variant) (env : Nat → Kind) (fuel : Nat) (id : Nat)
    (b : Expr) (s : St) : Option Int × St :=
  computeWith V (evalExpr V env fuel) id b s

/-- The microtask checkpoint: run the queued deferred tasks in FIFO order.
Each task is `() => { this.runEffect(); this.taskScheduled = false; }`: when
`runEffect` throws, the flag-clearing statement after it is skipped and the
exception surfaces to the host queue (the remaining tasks still run). -/
def flush (V : Variant) (env : Nat → Kind) : Nat → St → St
  | 0 => fun s => s
  | fuel + 1 => fun s =>
    match s.queue with
    | [] => s
    | id :: rest =>
      let s₁ := { s with queue := rest }
      match env id with
      | .effect b =>
        let r := runEffect V env fuel id b s₁
        let s₂ :=
          if r.1.isSome then
            { r.2 with taskScheduled := upd (r.2).taskScheduled id false }
          else r.2
        flush V env fuel s₂
      | _ => flush V env fuel s₁

/-- EffectNode constructor body: `this.markAsDisty()` schedules the first
run. -/
def effectInit (V : Variant) (env : Nat → Kind) (fuel : Nat) (id : Nat)
    (s : St) : St :=
  markDirty V env fuel id s

/-- EffectNode.destroy (variant B only): unsubscribe from every current
dependency, clear `deps`, set `destroyed`. -/
def destroyNode (id : Nat) (s : St) : St :=
  let s₁ := unsubAll .vB id (s.deps id) s
  { s₁ with
    deps := upd s₁.deps id []
    destroyed := upd s₁.destroyed id true }

/-- A synchronous turn of `getter.set` calls with the default equality. -/
def applyWrites (V : Variant) (env : Nat → Kind) (fuel : Nat)
    (ws : List (Nat × Int)) (s : St) : St :=
  ws.foldl (fun t w => signalSet objectIs V env fuel w.1 w.2 t) s

/-- The fields markAsDisty never touches (it only writes `dirty`, `queue`
and `taskScheduled`). -/
def MdFrame (s t : St) : Prop :=
  t.context = s.context ∧ t.value = s.value ∧ t.cvalue = s.cvalue ∧
  t.subs = s.subs ∧ t.deps = s.deps ∧ t.ctxDeps = s.ctxDeps ∧
  t.destroyed = s.destroyed ∧ t.runCount = s.runCount

/-- The fields body evaluation never touches: evaluation only reads, so the
queue, the scheduling and destruction flags and the stored writable values
are unchanged (the context is NOT in this frame: an abnormal exit can leave
it changed). -/
def EvalFrame (s t : St) : Prop :=
  t.queue = s.queue ∧ t.taskScheduled = s.taskScheduled ∧
  t.destroyed = s.destroyed ∧ t.value = s.value

/-- Generalised edge invariant, valid also mid-evaluation: a node appears in
a dependency's subscriber list exactly when the edge is recorded either in
its reconciled `deps` or in its in-flight `ctxDeps`. At rest (all `ctxDeps`
empty) this is exactly the mutual-consistency invariant of the
specification. -/
def GInv (s : St) : Prop :=
  ∀ a b, b ∈ s.subs a ↔ (a ∈ s.deps b ∨ a ∈ s.ctxDeps b)

/-- The node ids a body reads (syntactically). -/
def readsOf : Expr → List Nat
  | .lit _ => []
  | .readN i => [i]
  | .add a b => readsOf a ++ readsOf b
  | .iteNZ c t e => readsOf c ++ readsOf t ++ readsOf e
  | .throwE => []

/-- The node ids a node's own function can read. -/
def kindReads : Kind → List Nat
  | .writable => []
  | .computed b => readsOf b
  | .effect b => readsOf b

/-- The dependency graph described by the environment is ranked (hence
acyclic): every node's function reads only strictly lower-ranked nodes. -/
def RankedEnv (env : Nat → Kind) (rank : Nat → Nat) : Prop :=
  ∀ id i, i ∈ kindReads (env id) → rank i < rank id

/-- n-fold repetition of `subscribe(sub)` for the same subscriber (variant
B), to state what happens after any number of subscribe calls. -/
def subscribeIter (sub : Nat) : Nat → List Nat → List Nat
  | 0, l => l
  | n + 1, l => subscribeL .vB (subscribeIter sub n l) sub

/-- Diamond scenario for C1: node 0 is the source A, nodes 1 and 2 are
computed B and C each reading A, node 3 is computed D reading B and C. -/
def dEnv : Nat → Kind
  | 1 => .computed (.readN 0)
  | 2 => .computed (.readN 0)
  | 3 => .computed (.add (.readN 1) (.readN 2))
  | _ => .writable

/-- A rank function witnessing that the diamond graph is acyclic. -/
def dRank : Nat → Nat
  | 0 => 0
  | 3 => 2
  | _ => 1

/-- Diamond after the first read of D. -/
def dSt1 : St := (getValueAny .vA dEnv 6 3 (initSt (fun _ => 1))).2

/-- Diamond after a single write `A.set(5)`. -/
def dSt2 : St := signalSet objectIs .vA dEnv 6 0 5 dSt1

/-- Diamond after the second read of D. -/
def dSt3 : St := (getValueAny .vA dEnv 6 3 dSt2).2

/-- Conditional-dependency scenario for C5/C6/C7: signals X = 0 and b = 1;
node 2 is `Computed(() => b() ? x() + x() : 7)`, reading X twice on the
true branch and not at all on the false branch. -/
def cEnv : Nat → Kind
  | 2 => .computed (.iteNZ (.readN 1) (.add (.readN 0) (.readN 0)) (.lit 7))
  | _ => .writable

/-- Initial values for the conditional scenario: X = 10, b = 1 (truthy). -/
def cVals : Nat → Int := fun i => if i = 0 then 10 else 1

/-- Conditional scenario, variant A, after the first read (true branch). -/
def cSt1 : St := (getValueAny .vA cEnv 6 2 (initSt cVals)).2

/-- ... after `b.set(0)` switches the branch. -/
def cSt2 : St := signalSet objectIs .vA cEnv 6 1 0 cSt1

/-- ... after the re-read evaluates the false branch and reconciles. -/
def cSt3 : St := (getValueAny .vA cEnv 6 2 cSt2).2

/-- The same three steps of the conditional scenario under variant B. -/
def bSt1 : St := (getValueAny .vB cEnv 6 2 (initSt cVals)).2

/-- Variant B conditional scenario after `b.set(0)`. -/
def bSt2 : St := signalSet objectIs .vB cEnv 6 1 0 bSt1

/-- Variant B conditional scenario after the false-branch re-read. -/
def bSt3 : St := (getValueAny .vB cEnv 6 2 bSt2).2

/-- Effect scenario for C2/C3/C4/C9: signals 0 and 1, and node 2 is
`Effect(() => a() + b())`. -/
def eEnv : Nat → Kind
  | 2 => .effect (.add (.readN 0) (.readN 1))
  | _ => .writable

/-- Effect scenario right after construction (first run scheduled). -/
def eSt1 : St := effectInit .vA eEnv 3 2 (initSt (fun _ => 1))

/-- Effect scenario after the first deferred run (at rest). -/
def eSt2 : St := flush .vA eEnv 3 eSt1

/-- Effect scenario after one effective write `a.set(5)` (run scheduled). -/
def eSt3 : St := signalSet objectIs .vA eEnv 4 0 5 eSt2

/-- Variant B effect scenario right after construction. -/
def fSt1 : St := effectInit .vB eEnv 3 2 (initSt (fun _ => 1))

/-- Variant B effect scenario after the first deferred run (at rest). -/
def fSt2 : St := flush .vB eEnv 3 fSt1

/-- Throwing-computation scenario for C8: node 2 is a `Computed` whose
function throws. -/
def tEnv : Nat → Kind
  | 2 => .computed .throwE
  | _ => .writable

/-- Throwing-effect scenario for C9: node 0 is an `Effect` whose function
throws. -/
def gEnv : Nat → Kind
  | 0 => .effect .throwE
  | _ => .writable

/-- Throwing-effect scenario after construction (first run queued). -/
def gSt1 : St := effectInit .vA gEnv 2 0 (initSt (fun _ => 0))

/-- Throwing-effect scenario after the deferred run that threw. -/
def gSt2 : St := flush .vA gEnv 3 gSt1

/-- A state in which node 5 is currently being evaluated, for C10. -/
def wSt : St := { initSt (fun _ => 0) with context := some 5 }

/-! ## Basic list lemmas -/

theorem countOcc_eq_zero (x : Nat) (l : List Nat) :
    countOcc x l = 0 ↔ x ∉ l := by
  induction l with
  | nil => simp [countOcc]
  | cons y l ih =>
    by_cases h : y = x
    · subst h
      constructor
      · intro h0
        exfalso
        simp [countOcc] at h0
      · intro h0
        exact absurd (List.mem_cons_self y l) h0
    · simp only [countOcc, if_neg h, Nat.zero_add, ih, List.mem_cons]
      constructor
      · rintro h0 (rfl | hm)
        · exact h rfl
        · exact h0 hm
      · intro h0 hm
        exact h0 (Or.inr hm)

theorem countOcc_append (x : Nat) (l₁ l₂ : List Nat) :
    countOcc x (l₁ ++ l₂) = countOcc x l₁ + countOcc x l₂ := by
  induction l₁ with
  | nil => simp [countOcc]
  | cons y l ih => simp [countOcc, ih]; omega

theorem countOcc_eraseFirst (x : Nat) (l : List Nat) :
    countOcc x (eraseFirst x l) = countOcc x l - 1 := by
  induction l with
  | nil => simp [countOcc, eraseFirst]
  | cons y l ih =>
    by_cases h : y = x <;> simp [countOcc, eraseFirst, h, ih]

theorem mem_removeAll (x y : Nat) (l : List Nat) :
    y ∈ removeAll x l ↔ y ∈ l ∧ y ≠ x := by
  induction l with
  | nil => simp [removeAll]
  | cons z l ih =>
    by_cases h : z = x
    · subst h; simp [removeAll, ih]; tauto
    · simp [removeAll, h, ih]
      constructor
      · rintro (rfl | ⟨h1, h2⟩) <;> simp_all
      · rintro ⟨rfl | h1, h2⟩ <;> simp_all

theorem removeAll_idem (x : Nat) (l : List Nat) :
    removeAll x (removeAll x l) = removeAll x l := by
  induction l with
  | nil => rfl
  | cons z l ih =>
    by_cases h : z = x <;> simp [removeAll, h, ih]

theorem countOcc_removeAll (x : Nat) (l : List Nat) :
    countOcc x (removeAll x l) = 0 := by
  rw [countOcc_eq_zero, mem_removeAll]
  simp

theorem mem_setInsert (x y : Nat) (l : List Nat) :
    y ∈ setInsert l x ↔ y ∈ l ∨ y = x := by
  by_cases h : x ∈ l
  · simp [setInsert, h]
    intro hy; subst hy; exact h
  · simp [setInsert, h]

theorem self_mem_setInsert (x : Nat) (l : List Nat) : x ∈ setInsert l x := by
  rw [mem_setInsert]; right; rfl

theorem mem_notInFilter (excl l : List Nat) (y : Nat) :
    y ∈ notInFilter excl l ↔ y ∈ l ∧ y ∉ excl := by
  induction l with
  | nil => simp [notInFilter]
  | cons z l ih =>
    by_cases h : z ∈ excl
    · simp only [notInFilter, if_pos h, ih, List.mem_cons]
      constructor
      · rintro ⟨h1, h2⟩; exact ⟨Or.inr h1, h2⟩
      · rintro ⟨rfl | h1, h2⟩
        · exact absurd h h2
        · exact ⟨h1, h2⟩
    · simp only [notInFilter, if_neg h, List.mem_cons, ih]
      constructor
      · rintro (rfl | ⟨h1, h2⟩)
        · exact ⟨Or.inl rfl, h⟩
        · exact ⟨Or.inr h1, h2⟩
      · rintro ⟨rfl | h1, h2⟩
        · exact Or.inl rfl
        · exact Or.inr ⟨h1, h2⟩

theorem mem_inFilter (keep l : List Nat) (y : Nat) :
    y ∈ inFilter keep l ↔ y ∈ l ∧ y ∈ keep := by
  induction l with
  | nil => simp [inFilter]
  | cons z l ih =>
    by_cases h : z ∈ keep
    · simp only [inFilter, if_pos h, List.mem_cons, ih]
      constructor
      · rintro (rfl | ⟨h1, h2⟩)
        · exact ⟨Or.inl rfl, h⟩
        · exact ⟨Or.inr h1, h2⟩
      · rintro ⟨rfl | h1, h2⟩
        · exact Or.inl rfl
        · exact Or.inr ⟨h1, h2⟩
    · simp only [inFilter, if_neg h, ih, List.mem_cons]
      constructor
      · rintro ⟨h1, h2⟩; exact ⟨Or.inr h1, h2⟩
      · rintro ⟨rfl | h1, h2⟩
        · exact absurd h2 h
        · exact ⟨h1, h2⟩

theorem mem_subscribeL (V : Variant) (l : List Nat) (sub y : Nat) :
    y ∈ subscribeL V l sub ↔ y ∈ l ∨ y = sub := by
  cases V with
  | vA => simp [subscribeL]
  | vB =>
    by_cases h : sub ∈ l
    · simp [subscribeL, h]
      intro hy; subst hy; exact h
    · simp [subscribeL, h]

theorem self_mem_subscribeL (V : Variant) (l : List Nat) (sub : Nat) :
    sub ∈ subscribeL V l sub := by
  rw [mem_subscribeL]; right; rfl

theorem mem_eraseFirst_sub (x y : Nat) (l : List Nat) :
    y ∈ eraseFirst x l → y ∈ l := by
  induction l with
  | nil => simp [eraseFirst]
  | cons z l ih =>
    by_cases h : z = x
    · simp [eraseFirst, h]; tauto
    · simp [eraseFirst, h]
      rintro (rfl | hy)
      · left; rfl
      · right; exact ih hy

theorem mem_unsubscribeL_sub (V : Variant) (l : List Nat) (sub y : Nat) :
    y ∈ unsubscribeL V l sub → y ∈ l := by
  cases V with
  | vA => exact mem_eraseFirst_sub sub y l
  | vB =>
    intro h
    exact ((mem_removeAll sub y l).mp h).1

theorem countOcc_unsubscribeL_le (V : Variant) (l : List Nat) (x : Nat) :
    countOcc x (unsubscribeL V l x) ≤ countOcc x l := by
  cases V with
  | vA => rw [unsubscribeL, countOcc_eraseFirst]; omega
  | vB => rw [unsubscribeL, countOcc_removeAll]; omega

theorem countOcc_unsubscribeL_zero (V : Variant) (l : List Nat) (x : Nat)
    (h : countOcc x l ≤ 1) : countOcc x (unsubscribeL V l x) = 0 := by
  cases V with
  | vA => rw [unsubscribeL, countOcc_eraseFirst]; omega
  | vB => rw [unsubscribeL, countOcc_removeAll]

/-! ## Generic fold preservation -/

theorem foldl_pres {α : Type} (P : St → Prop) (f : St → α → St)
    (h : ∀ t x, P t → P (f t x)) :
    ∀ (l : List α) (t : St), P t → P (l.foldl f t) := by
  intro l
  induction l with
  | nil => intro t ht; exact ht
  | cons x l ih => intro t ht; exact ih (f t x) (h t x ht)

theorem foldl_proj {α β : Type} (g : St → β) (f : St → α → St)
    (h : ∀ t x, g (f t x) = g t) :
    ∀ (l : List α) (t : St), g (l.foldl f t) = g t := by
  intro l
  induction l with
  | nil => intro t; rfl
  | cons x l ih =>
    intro t
    rw [List.foldl_cons, ih, h]

/-! ## Frame lemmas: which state fields each operation leaves unchanged -/

theorem addAsSub_context (V : Variant) (id : Nat) (s : St) :
    (addAsSub V id s).context = s.context := by
  rcases hc : s.context with _ | ctx <;> simp [addAsSub, hc]

theorem addAsSub_value (V : Variant) (id : Nat) (s : St) :
    (addAsSub V id s).value = s.value := by
  rcases hc : s.context with _ | ctx <;> simp [addAsSub, hc]

theorem addAsSub_cvalue (V : Variant) (id : Nat) (s : St) :
    (addAsSub V id s).cvalue = s.cvalue := by
  rcases hc : s.context with _ | ctx <;> simp [addAsSub, hc]

theorem addAsSub_dirty (V : Variant) (id : Nat) (s : St) :
    (addAsSub V id s).dirty = s.dirty := by
  rcases hc : s.context with _ | ctx <;> simp [addAsSub, hc]

theorem addAsSub_deps (V : Variant) (id : Nat) (s : St) :
    (addAsSub V id s).deps = s.deps := by
  rcases hc : s.context with _ | ctx <;> simp [addAsSub, hc]

theorem addAsSub_taskScheduled (V : Variant) (id : Nat) (s : St) :
    (addAsSub V id s).taskScheduled = s.taskScheduled := by
  rcases hc : s.context with _ | ctx <;> simp [addAsSub, hc]

theorem addAsSub_destroyed (V : Variant) (id : Nat) (s : St) :
    (addAsSub V id s).destroyed = s.destroyed := by
  rcases hc : s.context with _ | ctx <;> simp [addAsSub, hc]

theorem addAsSub_queue (V : Variant) (id : Nat) (s : St) :
    (addAsSub V id s).queue = s.queue := by
  rcases hc : s.context with _ | ctx <;> simp [addAsSub, hc]

theorem addAsSub_runCount (V : Variant) (id : Nat) (s : St) :
    (addAsSub V id s).runCount = s.runCount := by
  rcases hc : s.context with _ | ctx <;> simp [addAsSub, hc]

theorem mdFrame_refl (s : St) : MdFrame s s :=
  ⟨rfl, rfl, rfl, rfl, rfl, rfl, rfl, rfl⟩

theorem mdFrame_trans {s t u : St} (h1 : MdFrame s t) (h2 : MdFrame t u) :
    MdFrame s u := by
  obtain ⟨a1, a2, a3, a4, a5, a6, a7, a8⟩ := h1
  obtain ⟨b1, b2, b3, b4, b5, b6, b7, b8⟩ := h2
  exact ⟨b1.trans a1, b2.trans a2, b3.trans a3, b4.trans a4,
    b5.trans a5, b6.trans a6, b7.trans a7, b8.trans a8⟩

theorem markDirty_mdFrame (V : Variant) (env : Nat → Kind) :
    ∀ (fuel id : Nat) (s : St), MdFrame s (markDirty V env fuel id s) := by
  intro fuel
  induction fuel with
  | zero => intro id s; exact mdFrame_refl s
  | succ fuel ih =>
    intro id s
    rcases henv : env id with _ | b | b <;> simp only [markDirty, henv]
    · split
      · exact mdFrame_refl s
      · refine foldl_pres (MdFrame s) _ ?_ _ _ ?_
        · intro t x ht
          exact mdFrame_trans ht (ih x t)
        · exact ⟨rfl, rfl, rfl, rfl, rfl, rfl, rfl, rfl⟩
    · split
      · exact mdFrame_refl s
      · refine foldl_pres (MdFrame s) _ ?_ _ _ ?_
        · intro t x ht
          exact mdFrame_trans ht (ih x t)
        · exact ⟨rfl, rfl, rfl, rfl, rfl, rfl, rfl, rfl⟩
    · split
      · exact mdFrame_refl s
      · exact ⟨rfl, rfl, rfl, rfl, rfl, rfl, rfl, rfl⟩

theorem markDirty_context (V : Variant) (env : Nat → Kind) (fuel id : Nat)
    (s : St) : (markDirty V env fuel id s).context = s.context :=
  (markDirty_mdFrame V env fuel id s).1

theorem markDirty_value (V : Variant) (env : Nat → Kind) (fuel id : Nat)
    (s : St) : (markDirty V env fuel id s).value = s.value :=
  (markDirty_mdFrame V env fuel id s).2.1

theorem markDirty_cvalue (V : Variant) (env : Nat → Kind) (fuel id : Nat)
    (s : St) : (markDirty V env fuel id s).cvalue = s.cvalue :=
  (markDirty_mdFrame V env fuel id s).2.2.1

theorem markDirty_subs (V : Variant) (env : Nat → Kind) (fuel id : Nat)
    (s : St) : (markDirty V env fuel id s).subs = s.subs :=
  (markDirty_mdFrame V env fuel id s).2.2.2.1

theorem markDirty_deps (V : Variant) (env : Nat → Kind) (fuel id : Nat)
    (s : St) : (markDirty V env fuel id s).deps = s.deps :=
  (markDirty_mdFrame V env fuel id s).2.2.2.2.1

theorem markDirty_ctxDeps (V : Variant) (env : Nat → Kind) (fuel id : Nat)
    (s : St) : (markDirty V env fuel id s).ctxDeps = s.ctxDeps :=
  (markDirty_mdFrame V env fuel id s).2.2.2.2.2.1

theorem markDirty_destroyed (V : Variant) (env : Nat → Kind) (fuel id : Nat)
    (s : St) : (markDirty V env fuel id s).destroyed = s.destroyed :=
  (markDirty_mdFrame V env fuel id s).2.2.2.2.2.2.1

theorem markDirty_runCount (V : Variant) (env : Nat → Kind) (fuel id : Nat)
    (s : St) : (markDirty V env fuel id s).runCount = s.runCount :=
  (markDirty_mdFrame V env fuel id s).2.2.2.2.2.2.2

theorem setValue_runCount (V : Variant) (env : Nat → Kind) (fuel id : Nat)
    (v : Int) (s : St) : (setValue V env fuel id v s).runCount = s.runCount := by
  unfold setValue
  rw [foldl_proj St.runCount _ (fun t x => markDirty_runCount V env fuel x t)]

theorem setValue_subs (V : Variant) (env : Nat → Kind) (fuel id : Nat)
    (v : Int) (s : St) : (setValue V env fuel id v s).subs = s.subs := by
  unfold setValue
  rw [foldl_proj St.subs _ (fun t x => markDirty_subs V env fuel x t)]

theorem setValue_deps (V : Variant) (env : Nat → Kind) (fuel id : Nat)
    (v : Int) (s : St) : (setValue V env fuel id v s).deps = s.deps := by
  unfold setValue
  rw [foldl_proj St.deps _ (fun t x => markDirty_deps V env fuel x t)]

theorem setValue_ctxDeps (V : Variant) (env : Nat → Kind) (fuel id : Nat)
    (v : Int) (s : St) : (setValue V env fuel id v s).ctxDeps = s.ctxDeps := by
  unfold setValue
  rw [foldl_proj St.ctxDeps _ (fun t x => markDirty_ctxDeps V env fuel x t)]

theorem setValue_context (V : Variant) (env : Nat → Kind) (fuel id : Nat)
    (v : Int) (s : St) : (setValue V env fuel id v s).context = s.context := by
  unfold setValue
  rw [foldl_proj St.context _ (fun t x => markDirty_context V env fuel x t)]

theorem setValue_cvalue (V : Variant) (env : Nat → Kind) (fuel id : Nat)
    (v : Int) (s : St) : (setValue V env fuel id v s).cvalue = s.cvalue := by
  unfold setValue
  rw [foldl_proj St.cvalue _ (fun t x => markDirty_cvalue V env fuel x t)]

theorem setValue_destroyed (V : Variant) (env : Nat → Kind) (fuel id : Nat)
    (v : Int) (s : St) : (setValue V env fuel id v s).destroyed = s.destroyed := by
  unfold setValue
  rw [foldl_proj St.destroyed _ (fun t x => markDirty_destroyed V env fuel x t)]

theorem signalSet_runCount (equal : Int → Int → Bool) (V : Variant)
    (env : Nat → Kind) (fuel id : Nat) (v : Int) (s : St) :
    (signalSet equal V env fuel id v s).runCount = s.runCount := by
  simp only [signalSet]
  split
  · exact addAsSub_runCount V id s
  · rw [setValue_runCount, addAsSub_runCount]

theorem unsubAll_proj {β : Type} (g : St → β)
    (h : ∀ (t : St) (f : Nat → List Nat), g { t with subs := f } = g t)
    (V : Variant) (id : Nat) (l : List Nat) (s : St) :
    g (unsubAll V id l s) = g s := by
  unfold unsubAll
  rw [foldl_proj g _ (fun t d => h t _)]

theorem unsubAll_context (V : Variant) (id : Nat) (l : List Nat) (s : St) :
    (unsubAll V id l s).context = s.context :=
  unsubAll_proj St.context (fun _ _ => rfl) V id l s

theorem unsubAll_value (V : Variant) (id : Nat) (l : List Nat) (s : St) :
    (unsubAll V id l s).value = s.value :=
  unsubAll_proj St.value (fun _ _ => rfl) V id l s

theorem unsubAll_cvalue (V : Variant) (id : Nat) (l : List Nat) (s : St) :
    (unsubAll V id l s).cvalue = s.cvalue :=
  unsubAll_proj St.cvalue (fun _ _ => rfl) V id l s

theorem unsubAll_dirty (V : Variant) (id : Nat) (l : List Nat) (s : St) :
    (unsubAll V id l s).dirty = s.dirty :=
  unsubAll_proj St.dirty (fun _ _ => rfl) V id l s

theorem unsubAll_deps (V : Variant) (id : Nat) (l : List Nat) (s : St) :
    (unsubAll V id l s).deps = s.deps :=
  unsubAll_proj St.deps (fun _ _ => rfl) V id l s

theorem unsubAll_ctxDeps (V : Variant) (id : Nat) (l : List Nat) (s : St) :
    (unsubAll V id l s).ctxDeps = s.ctxDeps :=
  unsubAll_proj St.ctxDeps (fun _ _ => rfl) V id l s

theorem unsubAll_taskScheduled (V : Variant) (id : Nat) (l : List Nat) (s : St) :
    (unsubAll V id l s).taskScheduled = s.taskScheduled :=
  unsubAll_proj St.taskScheduled (fun _ _ => rfl) V id l s

theorem unsubAll_destroyed (V : Variant) (id : Nat) (l : List Nat) (s : St) :
    (unsubAll V id l s).destroyed = s.destroyed :=
  unsubAll_proj St.destroyed (fun _ _ => rfl) V id l s

theorem unsubAll_queue (V : Variant) (id : Nat) (l : List Nat) (s : St) :
    (unsubAll V id l s).queue = s.queue :=
  unsubAll_proj St.queue (fun _ _ => rfl) V id l s

theorem unsubAll_runCount (V : Variant) (id : Nat) (l : List Nat) (s : St) :
    (unsubAll V id l s).runCount = s.runCount :=
  unsubAll_proj St.runCount (fun _ _ => rfl) V id l s

theorem reconcile_context (V : Variant) (id : Nat) (s : St) :
    (reconcile V id s).context = s.context := by
  unfold reconcile
  exact unsubAll_context V id _ s

theorem reconcile_value (V : Variant) (id : Nat) (s : St) :
    (reconcile V id s).value = s.value := by
  unfold reconcile
  exact unsubAll_value V id _ s

theorem reconcile_cvalue (V : Variant) (id : Nat) (s : St) :
    (reconcile V id s).cvalue = s.cvalue := by
  unfold reconcile
  exact unsubAll_cvalue V id _ s

theorem reconcile_dirty (V : Variant) (id : Nat) (s : St) :
    (reconcile V id s).dirty = s.dirty := by
  unfold reconcile
  exact unsubAll_dirty V id _ s

theorem reconcile_taskScheduled (V : Variant) (id : Nat) (s : St) :
    (reconcile V id s).taskScheduled = s.taskScheduled := by
  unfold reconcile
  exact unsubAll_taskScheduled V id _ s

theorem reconcile_destroyed (V : Variant) (id : Nat) (s : St) :
    (reconcile V id s).destroyed = s.destroyed := by
  unfold reconcile
  exact unsubAll_destroyed V id _ s

theorem reconcile_queue (V : Variant) (id : Nat) (s : St) :
    (reconcile V id s).queue = s.queue := by
  unfold reconcile
  exact unsubAll_queue V id _ s

theorem reconcile_runCount (V : Variant) (id : Nat) (s : St) :
    (reconcile V id s).runCount = s.runCount := by
  unfold reconcile
  exact unsubAll_runCount V id _ s

theorem evalFrame_refl (s : St) : EvalFrame s s := ⟨rfl, rfl, rfl, rfl⟩

theorem evalFrame_trans {s t u : St} (h1 : EvalFrame s t) (h2 : EvalFrame t u) :
    EvalFrame s u :=
  ⟨h2.1.trans h1.1, h2.2.1.trans h1.2.1, h2.2.2.1.trans h1.2.2.1,
    h2.2.2.2.trans h1.2.2.2⟩

theorem addAsSub_evalFrame (V : Variant) (id : Nat) (s : St) :
    EvalFrame s (addAsSub V id s) :=
  ⟨addAsSub_queue V id s, addAsSub_taskScheduled V id s,
    addAsSub_destroyed V id s, addAsSub_value V id s⟩

theorem exBind_pres (P : St → Prop) (r : Option Int × St)
    (k : Int → St → Option Int × St)
    (h1 : P r.2) (h2 : ∀ v t, P t → P ((k v t).2)) : P ((exBind r k).2) := by
  rcases r with ⟨r, s⟩
  cases r with
  | none => exact h1
  | some v => exact h2 v s h1

theorem computeWith_evalFrame (V : Variant) (ev : Expr → St → Option Int × St)
    (id : Nat) (b : Expr) (s : St)
    (hev : ∀ t, EvalFrame t ((ev b t).2)) :
    EvalFrame s ((computeWith V ev id b s).2) := by
  simp only [computeWith]
  refine exBind_pres (EvalFrame s) _ _ ?_ ?_
  · exact evalFrame_trans ⟨rfl, rfl, rfl, rfl⟩ (hev _)
  · intro v t ht
    exact evalFrame_trans ht
      ⟨reconcile_queue V id t, reconcile_taskScheduled V id t,
        reconcile_destroyed V id t, reconcile_value V id t⟩

theorem evalExprWith_evalFrame (gv : Nat → St → Option Int × St)
    (hgv : ∀ i t, EvalFrame t ((gv i t).2)) :
    ∀ (e : Expr) (s : St), EvalFrame s ((evalExprWith gv e s).2) := by
  intro e
  induction e with
  | lit n => intro s; exact evalFrame_refl s
  | throwE => intro s; exact evalFrame_refl s
  | readN i => intro s; exact hgv i s
  | add a b iha ihb =>
    intro s
    simp only [evalExprWith]
    refine exBind_pres (EvalFrame s) _ _ (iha s) ?_
    intro x t ht
    refine exBind_pres (EvalFrame s) _ _ (evalFrame_trans ht (ihb t)) ?_
    intro y u hu
    exact hu
  | iteNZ c t e ihc iht ihe =>
    intro s
    simp only [evalExprWith]
    refine exBind_pres (EvalFrame s) _ _ (ihc s) ?_
    intro x u hu
    by_cases hx : x ≠ 0
    · simp only [if_pos hx]
      exact evalFrame_trans hu (iht u)
    · simp only [if_neg hx]
      exact evalFrame_trans hu (ihe u)

theorem getValueAny_evalFrame (V : Variant) (env : Nat → Kind) :
    ∀ (fuel i : Nat) (s : St), EvalFrame s ((getValueAny V env fuel i s).2) := by
  intro fuel
  induction fuel with
  | zero => intro i s; exact evalFrame_refl s
  | succ fuel ih =>
    intro i s
    rcases henv : env i with _ | b | b <;> simp only [getValueAny, henv]
    · exact addAsSub_evalFrame V i s
    · split
      · refine exBind_pres (EvalFrame s) _ _ ?_ ?_
        · exact evalFrame_trans (addAsSub_evalFrame V i s)
            (computeWith_evalFrame V _ i b (addAsSub V i s)
              (fun t => evalExprWith_evalFrame _ (fun j u => ih j u) b t))
        · intro v t ht
          exact ht
      · exact addAsSub_evalFrame V i s
    · exact evalFrame_refl s

theorem getValueAny_queue (V : Variant) (env : Nat → Kind) (fuel i : Nat)
    (s : St) : ((getValueAny V env fuel i s).2).queue = s.queue :=
  (getValueAny_evalFrame V env fuel i s).1

theorem getValueAny_taskScheduled (V : Variant) (env : Nat → Kind) (fuel i : Nat)
    (s : St) : ((getValueAny V env fuel i s).2).taskScheduled = s.taskScheduled :=
  (getValueAny_evalFrame V env fuel i s).2.1

theorem getValueAny_destroyed (V : Variant) (env : Nat → Kind) (fuel i : Nat)
    (s : St) : ((getValueAny V env fuel i s).2).destroyed = s.destroyed :=
  (getValueAny_evalFrame V env fuel i s).2.2.1

theorem getValueAny_value (V : Variant) (env : Nat → Kind) (fuel i : Nat)
    (s : St) : ((getValueAny V env fuel i s).2).value = s.value :=
  (getValueAny_evalFrame V env fuel i s).2.2.2

theorem runEffect_evalFrame (V : Variant) (env : Nat → Kind) (fuel id : Nat)
    (b : Expr) (s : St) : EvalFrame s ((runEffect V env fuel id b s).2) :=
  computeWith_evalFrame V _ id b s
    (fun t => evalExprWith_evalFrame _ (fun j u => getValueAny_evalFrame V env fuel j u) b t)

theorem runEffect_queue (V : Variant) (env : Nat → Kind) (fuel id : Nat)
    (b : Expr) (s : St) : ((runEffect V env fuel id b s).2).queue = s.queue :=
  (runEffect_evalFrame V env fuel id b s).1

theorem runEffect_taskScheduled (V : Variant) (env : Nat → Kind) (fuel id : Nat)
    (b : Expr) (s : St) :
    ((runEffect V env fuel id b s).2).taskScheduled = s.taskScheduled :=
  (runEffect_evalFrame V env fuel id b s).2.1

theorem destroyNode_queue (id : Nat) (s : St) :
    (destroyNode id s).queue = s.queue := by
  unfold destroyNode
  exact unsubAll_queue .vB id _ s

theorem destroyNode_runCount (id : Nat) (s : St) :
    (destroyNode id s).runCount = s.runCount := by
  unfold destroyNode
  exact unsubAll_runCount .vB id _ s

theorem destroyNode_taskScheduled (id : Nat) (s : St) :
    (destroyNode id s).taskScheduled = s.taskScheduled := by
  unfold destroyNode
  exact unsubAll_taskScheduled .vB id _ s

theorem destroyNode_value (id : Nat) (s : St) :
    (destroyNode id s).value = s.value := by
  unfold destroyNode
  exact unsubAll_value .vB id _ s

theorem destroyNode_destroyed_self (id : Nat) (s : St) :
    (destroyNode id s).destroyed id = true := by
  unfold destroyNode
  simp

/-! ## markAsDisty behaviour on effects and dirty nodes -/

theorem guard_of_scheduled (V : Variant) (s : St) (id : Nat)
    (h : s.taskScheduled id = true) : effectGuard V s id = true := by
  cases V <;> simp [effectGuard, h]

theorem ne_of_guard_false (V : Variant) (s : St) (x id : Nat)
    (hg : effectGuard V s x = false) (hs : s.taskScheduled id = true) :
    x ≠ id := by
  intro hxe
  subst hxe
  cases V <;> simp [effectGuard, hs] at hg

theorem markDirty_effect_noop (V : Variant) (env : Nat → Kind) (fuel id : Nat)
    (b : Expr) (s : St) (henv : env id = Kind.effect b)
    (hg : effectGuard V s id = true) :
    markDirty V env (fuel + 1) id s = s := by
  simp only [markDirty, henv, hg, if_true]

theorem markDirty_computed_noop (V : Variant) (env : Nat → Kind) (fuel id : Nat)
    (b : Expr) (s : St) (henv : env id = Kind.computed b)
    (hd : s.dirty id = true) :
    markDirty V env (fuel + 1) id s = s := by
  simp only [markDirty, henv, hd, if_true]

theorem markDirty_keep (V : Variant) (env : Nat → Kind) (id : Nat) :
    ∀ (fuel x : Nat) (s : St), s.taskScheduled id = true →
      (markDirty V env fuel x s).taskScheduled id = true ∧
      countOcc id (markDirty V env fuel x s).queue = countOcc id s.queue := by
  intro fuel
  induction fuel with
  | zero => intro x s h; exact ⟨h, rfl⟩
  | succ fuel ih =>
    intro x s h
    rcases henv : env x with _ | b | b <;> simp only [markDirty, henv]
    · split
      · exact ⟨h, rfl⟩
      · refine foldl_pres
          (fun t => t.taskScheduled id = true ∧
            countOcc id t.queue = countOcc id s.queue) _ ?_ _ _ ⟨h, rfl⟩
        intro t y ⟨ht, hc⟩
        obtain ⟨h1, h2⟩ := ih y t ht
        exact ⟨h1, h2.trans hc⟩
    · split
      · exact ⟨h, rfl⟩
      · refine foldl_pres
          (fun t => t.taskScheduled id = true ∧
            countOcc id t.queue = countOcc id s.queue) _ ?_ _ _ ⟨h, rfl⟩
        intro t y ⟨ht, hc⟩
        obtain ⟨h1, h2⟩ := ih y t ht
        exact ⟨h1, h2.trans hc⟩
    · split
      · exact ⟨h, rfl⟩
      · rename_i hg
        have hx : x ≠ id :=
          ne_of_guard_false V s x id (by simpa using hg) h
        constructor
        · show upd s.taskScheduled x true id = true
          rw [upd_other _ _ _ _ (fun hc => hx hc.symm)]
          exact h
        · show countOcc id (s.queue ++ [x]) = countOcc id s.queue
          rw [countOcc_append]
          simp [countOcc, hx]

theorem markDirty_keep_destroyed (env : Nat → Kind) (id : Nat) :
    ∀ (fuel x : Nat) (s : St), s.destroyed id = true →
      countOcc id (markDirty .vB env fuel x s).queue = countOcc id s.queue := by
  intro fuel
  induction fuel with
  | zero => intro x s _; rfl
  | succ fuel ih =>
    intro x s h
    rcases henv : env x with _ | b | b <;> simp only [markDirty, henv]
    · split
      · rfl
      · exact (foldl_pres
          (fun t => t.destroyed id = true ∧
            countOcc id t.queue = countOcc id s.queue)
          (fun t j => markDirty .vB env fuel j t)
          (fun t y hty => ⟨by rw [markDirty_destroyed]; exact hty.1,
            (ih y t hty.1).trans hty.2⟩)
          (s.subs x) { s with dirty := upd s.dirty x true } ⟨h, rfl⟩).2
    · split
      · rfl
      · exact (foldl_pres
          (fun t => t.destroyed id = true ∧
            countOcc id t.queue = countOcc id s.queue)
          (fun t j => markDirty .vB env fuel j t)
          (fun t y hty => ⟨by rw [markDirty_destroyed]; exact hty.1,
            (ih y t hty.1).trans hty.2⟩)
          (s.subs x) { s with dirty := upd s.dirty x true } ⟨h, rfl⟩).2
    · split
      · rfl
      · rename_i hg
        have hx : x ≠ id := by
          intro hxe
          subst hxe
          simp [effectGuard, h] at hg
        show countOcc id (s.queue ++ [x]) = countOcc id s.queue
        rw [countOcc_append]
        simp [countOcc, hx]

theorem setValue_keep (V : Variant) (env : Nat → Kind) (id fuel x : Nat)
    (v : Int) (s : St) (h : s.taskScheduled id = true) :
    (setValue V env fuel x v s).taskScheduled id = true ∧
    countOcc id (setValue V env fuel x v s).queue = countOcc id s.queue := by
  unfold setValue
  refine foldl_pres
    (fun t => t.taskScheduled id = true ∧
      countOcc id t.queue = countOcc id s.queue) _ ?_ _ _ ⟨h, rfl⟩
  intro t y ⟨ht, hc⟩
  obtain ⟨h1, h2⟩ := markDirty_keep V env id fuel y t ht
  exact ⟨h1, h2.trans hc⟩

theorem signalSet_keep (equal : Int → Int → Bool) (V : Variant)
    (env : Nat → Kind) (id fuel x : Nat) (v : Int) (s : St)
    (h : s.taskScheduled id = true) :
    (signalSet equal V env fuel x v s).taskScheduled id = true ∧
    countOcc id (signalSet equal V env fuel x v s).queue = countOcc id s.queue := by
  simp only [signalSet]
  have ha : (addAsSub V x s).taskScheduled id = true := by
    rw [addAsSub_taskScheduled]; exact h
  have hq : countOcc id (addAsSub V x s).queue = countOcc id s.queue := by
    rw [addAsSub_queue]
  split
  · exact ⟨ha, hq⟩
  · obtain ⟨h1, h2⟩ := setValue_keep V env id fuel x v (addAsSub V x s) ha
    exact ⟨h1, h2.trans hq⟩

theorem applyWrites_keep (V : Variant) (env : Nat → Kind) (id fuel : Nat)
    (ws : List (Nat × Int)) (s : St) (h : s.taskScheduled id = true) :
    (applyWrites V env fuel ws s).taskScheduled id = true ∧
    countOcc id (applyWrites V env fuel ws s).queue = countOcc id s.queue := by
  unfold applyWrites
  refine foldl_pres
    (fun t => t.taskScheduled id = true ∧
      countOcc id t.queue = countOcc id s.queue) _ ?_ _ _ ⟨h, rfl⟩
  intro t w ⟨ht, hc⟩
  obtain ⟨h1, h2⟩ := signalSet_keep objectIs V env id fuel w.1 w.2 t ht
  exact ⟨h1, h2.trans hc⟩

theorem applyWrites_runCount (V : Variant) (env : Nat → Kind) (fuel : Nat)
    (ws : List (Nat × Int)) (s : St) :
    (applyWrites V env fuel ws s).runCount = s.runCount := by
  unfold applyWrites
  exact foldl_proj St.runCount _
    (fun t w => signalSet_runCount objectIs V env fuel w.1 w.2 t) ws s

/-! ## Run counting -/

theorem evalExprWith_proj {β : Type} (g : St → β)
    (gv : Nat → St → Option Int × St)
    (hgv : ∀ x t, g ((gv x t).2) = g t) :
    ∀ (e : Expr) (s : St), g ((evalExprWith gv e s).2) = g s := by
  intro e
  induction e with
  | lit n => intro s; rfl
  | throwE => intro s; rfl
  | readN x => intro s; exact hgv x s
  | add a b iha ihb =>
    intro s
    simp only [evalExprWith]
    refine exBind_pres (fun t => g t = g s) _ _ (iha s) ?_
    intro x t ht
    refine exBind_pres (fun u => g u = g s) _ _ ((ihb t).trans ht) ?_
    intro y u hu
    exact hu
  | iteNZ c t e ihc iht ihe =>
    intro s
    simp only [evalExprWith]
    refine exBind_pres (fun u => g u = g s) _ _ (ihc s) ?_
    intro x u hu
    by_cases hx : x ≠ 0
    · simp only [if_pos hx]
      exact (iht u).trans hu
    · simp only [if_neg hx]
      exact (ihe u).trans hu

theorem computeWith_runCount_other (V : Variant)
    (ev : Expr → St → Option Int × St) (id : Nat) (b : Expr) (s : St) (i : Nat)
    (hne : id ≠ i)
    (hev : ∀ t, ((ev b t).2).runCount i = t.runCount i) :
    ((computeWith V ev id b s).2).runCount i = s.runCount i := by
  simp only [computeWith]
  refine exBind_pres (fun t => t.runCount i = s.runCount i) _ _ ?_ ?_
  · exact (hev _).trans (upd_other s.runCount id i _ (Ne.symm hne))
  · intro v t ht
    show (reconcile V id t).runCount i = s.runCount i
    rw [reconcile_runCount]
    exact ht

theorem getValueAny_runCount_effect (V : Variant) (env : Nat → Kind)
    (i : Nat) (bi : Expr) (henv : env i = Kind.effect bi) :
    ∀ (fuel x : Nat) (s : St),
      ((getValueAny V env fuel x s).2).runCount i = s.runCount i := by
  intro fuel
  induction fuel with
  | zero => intro x s; rfl
  | succ fuel ih =>
    intro x s
    rcases hex : env x with _ | b | b <;> simp only [getValueAny, hex]
    · show (addAsSub V x s).runCount i = s.runCount i
      rw [addAsSub_runCount]
    · split
      · refine exBind_pres (fun t => t.runCount i = s.runCount i) _ _ ?_ ?_
        · have hne : x ≠ i := by
            intro hxe
            subst hxe
            rw [hex] at henv
            exact Kind.noConfusion henv
          have h1 := computeWith_runCount_other V
            (evalExprWith (getValueAny V env fuel)) x b (addAsSub V x s) i hne
            (fun t => evalExprWith_proj (fun u => u.runCount i)
              (getValueAny V env fuel) (fun y u => ih y u) b t)
          exact h1.trans (congrFun (addAsSub_runCount V x s) i)
        · intro v t ht
          exact ht
      · show (addAsSub V x s).runCount i = s.runCount i
        rw [addAsSub_runCount]

theorem runEffect_runCount (V : Variant) (env : Nat → Kind) (fuel j : Nat)
    (bj : Expr) (s : St) (i : Nat) (bi : Expr) (henv : env i = Kind.effect bi) :
    ((runEffect V env fuel j bj s).2).runCount i =
      s.runCount i + (if j = i then 1 else 0) := by
  by_cases hj : j = i
  · subst hj
    rw [if_pos rfl]
    simp only [runEffect, computeWith]
    refine exBind_pres (fun t => t.runCount j = s.runCount j + 1) _ _ ?_ ?_
    · exact (evalExprWith_proj (fun u => u.runCount j) (getValueAny V env fuel)
        (fun y u => getValueAny_runCount_effect V env j bi henv fuel y u) bj _).trans
        (upd_same s.runCount j (s.runCount j + 1))
    · intro v t ht
      show (reconcile V j t).runCount j = s.runCount j + 1
      rw [reconcile_runCount]
      exact ht
  · rw [if_neg hj, Nat.add_zero]
    exact computeWith_runCount_other V (evalExpr V env fuel) j bj s i hj
      (fun t => evalExprWith_proj (fun u => u.runCount i) (getValueAny V env fuel)
        (fun y u => getValueAny_runCount_effect V env i bi henv fuel y u) bj t)

theorem flush_nilQ (V : Variant) (env : Nat → Kind) (fuel : Nat) (s : St)
    (h : s.queue = []) : flush V env fuel s = s := by
  cases fuel with
  | zero => rfl
  | succ fuel => simp only [flush, h]

theorem flush_runCount (V : Variant) (env : Nat → Kind) (i : Nat) (bi : Expr)
    (henv : env i = Kind.effect bi) :
    ∀ (fuel : Nat) (s : St), s.queue.length ≤ fuel →
      (flush V env fuel s).runCount i = s.runCount i + countOcc i s.queue := by
  intro fuel
  induction fuel with
  | zero =>
    intro s hlen
    have h0 : s.queue = [] := List.eq_nil_of_length_eq_zero (Nat.le_zero.mp hlen)
    simp [flush, h0, countOcc]
  | succ fuel ih =>
    intro s hlen
    rcases hq : s.queue with _ | ⟨x, rest⟩
    · rw [flush_nilQ V env _ s hq]
      simp [countOcc]
    · rw [hq] at hlen
      have hrest : rest.length ≤ fuel := by
        simp only [List.length_cons] at hlen
        omega
      simp only [flush, hq]
      rcases hex : env x with _ | b | b <;> simp only
      · have hx : x ≠ i := by
          intro hxe
          subst hxe
          rw [hex] at henv
          exact Kind.noConfusion henv
        rw [ih { s with queue := rest } hrest]
        show s.runCount i + countOcc i rest = s.runCount i + countOcc i (x :: rest)
        simp [countOcc, hx]
      · have hx : x ≠ i := by
          intro hxe
          subst hxe
          rw [hex] at henv
          exact Kind.noConfusion henv
        rw [ih { s with queue := rest } hrest]
        show s.runCount i + countOcc i rest = s.runCount i + countOcc i (x :: rest)
        simp [countOcc, hx]
      · have hrc := runEffect_runCount V env fuel x b { s with queue := rest }
          i bi henv
        have hqe := runEffect_queue V env fuel x b { s with queue := rest }
        split
        · rw [ih _ (by simp only [hqe]; exact hrest)]
          show (runEffect V env fuel x b { s with queue := rest }).2.runCount i +
            countOcc i (runEffect V env fuel x b { s with queue := rest }).2.queue =
            s.runCount i + countOcc i (x :: rest)
          rw [hrc, hqe]
          show s.runCount i + (if x = i then 1 else 0) + countOcc i rest =
            s.runCount i + ((if x = i then 1 else 0) + countOcc i rest)
          omega
        · rw [ih _ (by simp only [hqe]; exact hrest)]
          rw [hrc, hqe]
          show s.runCount i + (if x = i then 1 else 0) + countOcc i rest =
            s.runCount i + ((if x = i then 1 else 0) + countOcc i rest)
          omega

/-! ## Unsubscription and reconciliation behaviour -/

theorem unsubAll_nil (V : Variant) (id : Nat) (s : St) :
    unsubAll V id [] s = s := rfl

theorem unsubAll_cons (V : Variant) (id x : Nat) (l : List Nat) (s : St) :
    unsubAll V id (x :: l) s =
      unsubAll V id l { s with subs := upd s.subs x (unsubscribeL V (s.subs x) id) } :=
  rfl

theorem unsubAll_count_le (V : Variant) (id : Nat) :
    ∀ (l : List Nat) (s : St) (d : Nat),
      countOcc id ((unsubAll V id l s).subs d) ≤ countOcc id (s.subs d) := by
  intro l
  induction l with
  | nil => intro s d; exact Nat.le_refl _
  | cons x l ih =>
    intro s d
    rw [unsubAll_cons]
    refine (ih _ d).trans ?_
    by_cases hd : d = x
    · subst hd
      show countOcc id (upd s.subs d (unsubscribeL V (s.subs d) id) d) ≤ _
      rw [upd_same]
      exact countOcc_unsubscribeL_le V (s.subs d) id
    · show countOcc id (upd s.subs x (unsubscribeL V (s.subs x) id) d) ≤ _
      rw [upd_other _ _ _ _ hd]

theorem unsubAll_subs_of_not_mem (V : Variant) (id : Nat) :
    ∀ (l : List Nat) (s : St) (d : Nat), d ∉ l →
      (unsubAll V id l s).subs d = s.subs d := by
  intro l
  induction l with
  | nil => intro s d _; rfl
  | cons x l ih =>
    intro s d hd
    rw [unsubAll_cons]
    have hdx : d ≠ x := fun hc => hd (hc ▸ List.mem_cons_self x l)
    have hdl : d ∉ l := fun hc => hd (List.mem_cons_of_mem x hc)
    rw [ih _ d hdl]
    exact upd_other _ _ _ _ hdx

theorem unsubAll_count_zero (V : Variant) (id : Nat) :
    ∀ (l : List Nat) (s : St) (d : Nat), d ∈ l →
      countOcc id (s.subs d) ≤ 1 →
      countOcc id ((unsubAll V id l s).subs d) = 0 := by
  intro l
  induction l with
  | nil => intro s d hd; exact absurd hd (List.not_mem_nil d)
  | cons x l ih =>
    intro s d hd hc
    rw [unsubAll_cons]
    by_cases hdx : d = x
    · subst hdx
      have h0 : countOcc id
          (({ s with subs := upd s.subs d (unsubscribeL V (s.subs d) id) } : St).subs d) = 0 := by
        show countOcc id (upd s.subs d (unsubscribeL V (s.subs d) id) d) = 0
        rw [upd_same]
        exact countOcc_unsubscribeL_zero V (s.subs d) id hc
      have hle := unsubAll_count_le V id l
        { s with subs := upd s.subs d (unsubscribeL V (s.subs d) id) } d
      omega
    · have hdl : d ∈ l := by
        rcases List.mem_cons.mp hd with hc1 | hc1
        · exact absurd hc1 hdx
        · exact hc1
      refine ih _ d hdl ?_
      show countOcc id (upd s.subs x (unsubscribeL V (s.subs x) id) d) ≤ 1
      rw [upd_other _ _ _ _ hdx]
      exact hc

theorem unsubAll_subs_vB (id : Nat) :
    ∀ (l : List Nat) (s : St) (d : Nat),
      (unsubAll .vB id l s).subs d =
        if d ∈ l then removeAll id (s.subs d) else s.subs d := by
  intro l
  induction l with
  | nil => intro s d; rw [unsubAll_nil]; simp
  | cons x l ih =>
    intro s d
    rw [unsubAll_cons, ih]
    by_cases hdl : d ∈ l
    · rw [if_pos hdl, if_pos (List.mem_cons_of_mem x hdl)]
      by_cases hdx : d = x
      · subst hdx
        show removeAll id (upd s.subs d (unsubscribeL .vB (s.subs d) id) d) = _
        rw [upd_same]
        show removeAll id (removeAll id (s.subs d)) = removeAll id (s.subs d)
        exact removeAll_idem id (s.subs d)
      · show removeAll id (upd s.subs x (unsubscribeL .vB (s.subs x) id) d) = _
        rw [upd_other _ _ _ _ hdx]
    · rw [if_neg hdl]
      by_cases hdx : d = x
      · subst hdx
        rw [if_pos (List.mem_cons_self d l)]
        show upd s.subs d (unsubscribeL .vB (s.subs d) id) d = _
        rw [upd_same]
        rfl
      · rw [if_neg (fun hc => by
          rcases List.mem_cons.mp hc with hc1 | hc1
          · exact hdx hc1
          · exact hdl hc1)]
        exact upd_other _ _ _ _ hdx

theorem reconcile_subs_eq (V : Variant) (id : Nat) (s : St) :
    (reconcile V id s).subs =
      (unsubAll V id (notInFilter (s.ctxDeps id) (s.deps id)) s).subs := rfl

theorem mem_reconcile_deps (V : Variant) (id : Nat) (s : St) (y : Nat) :
    y ∈ (reconcile V id s).deps id ↔ y ∈ s.ctxDeps id := by
  show y ∈ upd ((unsubAll V id (notInFilter (s.ctxDeps id) (s.deps id)) s).deps)
    id (inFilter (s.ctxDeps id) (s.deps id) ++
      notInFilter (inFilter (s.ctxDeps id) (s.deps id)) (s.ctxDeps id)) id ↔ _
  rw [upd_same, List.mem_append, mem_inFilter, mem_notInFilter, mem_inFilter]
  constructor
  · rintro (⟨_, h2⟩ | ⟨h1, _⟩)
    · exact h2
    · exact h1
  · intro h
    by_cases hd : y ∈ s.deps id
    · exact Or.inl ⟨hd, h⟩
    · exact Or.inr ⟨h, fun hc => hd hc.1⟩

theorem reconcile_deps_other (V : Variant) (id j : Nat) (s : St) (h : j ≠ id) :
    (reconcile V id s).deps j = s.deps j := by
  show upd ((unsubAll V id (notInFilter (s.ctxDeps id) (s.deps id)) s).deps) id
    _ j = _
  rw [upd_other _ _ _ _ h, unsubAll_deps]

theorem reconcile_ctxDeps_self (V : Variant) (id : Nat) (s : St) :
    (reconcile V id s).ctxDeps id = [] := by
  show upd ((unsubAll V id (notInFilter (s.ctxDeps id) (s.deps id)) s).ctxDeps)
    id [] id = []
  rw [upd_same]

theorem reconcile_ctxDeps_other (V : Variant) (id j : Nat) (s : St) (h : j ≠ id) :
    (reconcile V id s).ctxDeps j = s.ctxDeps j := by
  show upd ((unsubAll V id (notInFilter (s.ctxDeps id) (s.deps id)) s).ctxDeps)
    id [] j = _
  rw [upd_other _ _ _ _ h, unsubAll_ctxDeps]

theorem reconcile_drops_dep (V : Variant) (id d : Nat) (s : St)
    (_hd : d ∈ s.deps id) (hnc : d ∉ s.ctxDeps id) :
    d ∉ (reconcile V id s).deps id := by
  rw [mem_reconcile_deps]
  exact hnc

theorem reconcile_unsubscribes (V : Variant) (id d : Nat) (s : St)
    (hd : d ∈ s.deps id) (hnc : d ∉ s.ctxDeps id)
    (hcnt : countOcc id (s.subs d) ≤ 1) :
    id ∉ (reconcile V id s).subs d := by
  rw [show (reconcile V id s).subs d =
    (unsubAll V id (notInFilter (s.ctxDeps id) (s.deps id)) s).subs d from rfl]
  rw [← countOcc_eq_zero]
  exact unsubAll_count_zero V id _ s d
    ((mem_notInFilter _ _ d).mpr ⟨hd, hnc⟩) hcnt

theorem reconcile_unsubscribes_vB (id d : Nat) (s : St)
    (hd : d ∈ s.deps id) (hnc : d ∉ s.ctxDeps id) :
    id ∉ (reconcile .vB id s).subs d := by
  rw [show (reconcile .vB id s).subs d =
    (unsubAll .vB id (notInFilter (s.ctxDeps id) (s.deps id)) s).subs d from rfl]
  rw [unsubAll_subs_vB, if_pos ((mem_notInFilter _ _ d).mpr ⟨hd, hnc⟩)]
  intro hc
  exact ((mem_removeAll id id (s.subs d)).mp hc).2 rfl

theorem destroyNode_deps_self (id : Nat) (s : St) :
    (destroyNode id s).deps id = [] := by
  show upd ((unsubAll .vB id (s.deps id) s).deps) id [] id = []
  rw [upd_same]

theorem destroyNode_not_sub (id d : Nat) (s : St) (hd : d ∈ s.deps id) :
    id ∉ (destroyNode id s).subs d := by
  rw [show (destroyNode id s).subs d = (unsubAll .vB id (s.deps id) s).subs d
    from rfl]
  rw [unsubAll_subs_vB, if_pos hd]
  intro hc
  exact ((mem_removeAll id id (s.subs d)).mp hc).2 rfl

/-! ## The subscriber/dependency consistency invariant -/

theorem GInv_of_fields {s t : St} (hs : t.subs = s.subs) (hd : t.deps = s.deps)
    (hc : t.ctxDeps = s.ctxDeps) (h : GInv s) : GInv t := by
  intro a b
  rw [hs, hd, hc]
  exact h a b

theorem addAsSub_GInv (V : Variant) (id : Nat) (s : St) (h : GInv s) :
    GInv (addAsSub V id s) := by
  rcases hctx : s.context with _ | ctx
  · simp only [addAsSub, hctx]
    exact h
  · simp only [addAsSub, hctx]
    intro a b
    show b ∈ upd s.subs id (subscribeL V (s.subs id) ctx) a ↔
      a ∈ s.deps b ∨ a ∈ upd s.ctxDeps ctx (setInsert (s.ctxDeps ctx) id) b
    by_cases ha : a = id <;> by_cases hb : b = ctx
    · subst ha; subst hb
      rw [upd_same, upd_same, mem_subscribeL, mem_setInsert]
      constructor
      · intro _; exact Or.inr (Or.inr rfl)
      · intro _; exact Or.inr rfl
    · subst ha
      rw [upd_same, upd_other _ _ _ _ hb, mem_subscribeL]
      constructor
      · rintro (hc | hc)
        · exact (h a b).mp hc
        · exact absurd hc hb
      · intro hc
        exact Or.inl ((h a b).mpr hc)
    · subst hb
      rw [upd_other _ _ _ _ ha, upd_same, mem_setInsert]
      constructor
      · intro hc
        rcases (h a b).mp hc with hc1 | hc1
        · exact Or.inl hc1
        · exact Or.inr (Or.inl hc1)
      · rintro (hc | hc | hc)
        · exact (h a b).mpr (Or.inl hc)
        · exact (h a b).mpr (Or.inr hc)
        · exact absurd hc ha
    · rw [upd_other _ _ _ _ ha, upd_other _ _ _ _ hb]
      exact h a b

theorem reconcile_GInv_vB (id : Nat) (s : St) (h : GInv s) :
    GInv (reconcile .vB id s) := by
  intro a b
  have hsubs : (reconcile .vB id s).subs a =
      if a ∈ notInFilter (s.ctxDeps id) (s.deps id) then removeAll id (s.subs a)
      else s.subs a := by
    rw [show (reconcile .vB id s).subs a =
      (unsubAll .vB id (notInFilter (s.ctxDeps id) (s.deps id)) s).subs a from rfl,
      unsubAll_subs_vB]
  by_cases hb : b = id
  · subst hb
    rw [hsubs]
    by_cases hma : a ∈ notInFilter (s.ctxDeps b) (s.deps b)
    · rw [if_pos hma]
      obtain ⟨had, hac⟩ := (mem_notInFilter _ _ a).mp hma
      constructor
      · intro hc
        exact absurd rfl ((mem_removeAll b b (s.subs a)).mp hc).2
      · rintro (hc | hc)
        · exact absurd ((mem_reconcile_deps _ b s a).mp hc) hac
        · rw [reconcile_ctxDeps_self] at hc
          exact absurd hc (List.not_mem_nil a)
    · rw [if_neg hma]
      have himp : a ∈ s.deps b → a ∈ s.ctxDeps b := by
        intro had
        by_contra hac
        exact hma ((mem_notInFilter _ _ a).mpr ⟨had, hac⟩)
      rw [h a b, reconcile_ctxDeps_self]
      constructor
      · rintro (hc | hc)
        · exact Or.inl ((mem_reconcile_deps _ b s a).mpr (himp hc))
        · exact Or.inl ((mem_reconcile_deps _ b s a).mpr hc)
      · rintro (hc | hc)
        · exact Or.inr ((mem_reconcile_deps _ b s a).mp hc)
        · exact absurd hc (List.not_mem_nil a)
  · rw [hsubs, reconcile_deps_other .vB id b s hb,
      reconcile_ctxDeps_other .vB id b s hb]
    by_cases hma : a ∈ notInFilter (s.ctxDeps id) (s.deps id)
    · rw [if_pos hma, mem_removeAll]
      constructor
      · rintro ⟨h1, _⟩
        exact (h a b).mp h1
      · intro hr
        exact ⟨(h a b).mpr hr, hb⟩
    · rw [if_neg hma]
      exact h a b

theorem evalExprWith_GInv (gv : Nat → St → Option Int × St)
    (hgv : ∀ i t, GInv t → GInv ((gv i t).2)) :
    ∀ (e : Expr) (s : St), GInv s → GInv ((evalExprWith gv e s).2) := by
  intro e
  induction e with
  | lit n => intro s hs; exact hs
  | throwE => intro s hs; exact hs
  | readN i => intro s hs; exact hgv i s hs
  | add a b iha ihb =>
    intro s hs
    simp only [evalExprWith]
    refine exBind_pres GInv _ _ (iha s hs) ?_
    intro x t ht
    refine exBind_pres GInv _ _ (ihb t ht) ?_
    intro y u hu
    exact hu
  | iteNZ c t e ihc iht ihe =>
    intro s hs
    simp only [evalExprWith]
    refine exBind_pres GInv _ _ (ihc s hs) ?_
    intro x u hu
    by_cases hx : x ≠ 0
    · simp only [if_pos hx]
      exact iht u hu
    · simp only [if_neg hx]
      exact ihe u hu

theorem computeWith_GInv_vB (ev : Expr → St → Option Int × St) (id : Nat)
    (b : Expr) (s : St) (hev : ∀ t, GInv t → GInv ((ev b t).2)) (h : GInv s) :
    GInv ((computeWith .vB ev id b s).2) := by
  simp only [computeWith]
  refine exBind_pres GInv _ _ (hev _ h) ?_
  intro v t ht
  exact reconcile_GInv_vB id t ht

theorem getValueAny_GInv_vB (env : Nat → Kind) :
    ∀ (fuel i : Nat) (s : St), GInv s → GInv ((getValueAny .vB env fuel i s).2) := by
  intro fuel
  induction fuel with
  | zero => intro i s hs; exact hs
  | succ fuel ih =>
    intro i s hs
    rcases henv : env i with _ | b | b <;> simp only [getValueAny, henv]
    · exact addAsSub_GInv .vB i s hs
    · split
      · refine exBind_pres GInv _ _ ?_ ?_
        · exact computeWith_GInv_vB _ i b _
            (fun t ht => evalExprWith_GInv _ (fun j u hu => ih j u hu) b t ht)
            (addAsSub_GInv .vB i s hs)
        · intro v t ht
          exact ht
      · exact addAsSub_GInv .vB i s hs
    · exact hs

theorem markDirty_GInv (V : Variant) (env : Nat → Kind) (fuel id : Nat)
    (s : St) (h : GInv s) : GInv (markDirty V env fuel id s) :=
  GInv_of_fields (markDirty_subs V env fuel id s)
    (markDirty_deps V env fuel id s) (markDirty_ctxDeps V env fuel id s) h

theorem setValue_GInv (V : Variant) (env : Nat → Kind) (fuel id : Nat)
    (v : Int) (s : St) (h : GInv s) : GInv (setValue V env fuel id v s) := by
  unfold setValue
  refine foldl_pres GInv _ ?_ _ _ h
  intro t x ht
  exact markDirty_GInv V env fuel x t ht

theorem signalSet_GInv (equal : Int → Int → Bool) (V : Variant)
    (env : Nat → Kind) (fuel id : Nat) (v : Int) (s : St) (h : GInv s) :
    GInv (signalSet equal V env fuel id v s) := by
  simp only [signalSet]
  split
  · exact addAsSub_GInv V id s h
  · exact setValue_GInv V env fuel id v _ (addAsSub_GInv V id s h)

theorem runEffect_GInv_vB (env : Nat → Kind) (fuel id : Nat) (b : Expr)
    (s : St) (h : GInv s) : GInv ((runEffect .vB env fuel id b s).2) :=
  computeWith_GInv_vB _ id b s
    (fun t ht => evalExprWith_GInv _
      (fun j u hu => getValueAny_GInv_vB env fuel j u hu) b t ht) h

theorem flush_GInv_vB (env : Nat → Kind) :
    ∀ (fuel : Nat) (s : St), GInv s → GInv (flush .vB env fuel s) := by
  intro fuel
  induction fuel with
  | zero => intro s hs; exact hs
  | succ fuel ih =>
    intro s hs
    rcases hq : s.queue with _ | ⟨x, rest⟩
    · rw [flush_nilQ .vB env _ s hq]
      exact hs
    · simp only [flush, hq]
      rcases hex : env x with _ | b | b <;> simp only
      · exact ih _ (GInv_of_fields rfl rfl rfl hs)
      · exact ih _ (GInv_of_fields rfl rfl rfl hs)
      · apply ih
        have hr : GInv ((runEffect .vB env fuel x b { s with queue := rest }).2) :=
          runEffect_GInv_vB env fuel x b _ (GInv_of_fields rfl rfl rfl hs)
        split
        · exact GInv_of_fields rfl rfl rfl hr
        · exact hr

theorem destroyNode_ctxDeps (id : Nat) (s : St) :
    (destroyNode id s).ctxDeps = s.ctxDeps := by
  show (unsubAll .vB id (s.deps id) s).ctxDeps = s.ctxDeps
  exact unsubAll_ctxDeps .vB id _ s

theorem destroyNode_GInv (id : Nat) (s : St) (hctx : s.ctxDeps id = [])
    (h : GInv s) : GInv (destroyNode id s) := by
  intro a b
  have hsubs : (destroyNode id s).subs a =
      if a ∈ s.deps id then removeAll id (s.subs a) else s.subs a := by
    rw [show (destroyNode id s).subs a = (unsubAll .vB id (s.deps id) s).subs a
      from rfl, unsubAll_subs_vB]
  by_cases hb : b = id
  · subst hb
    rw [hsubs, destroyNode_deps_self, congrFun (destroyNode_ctxDeps b s) b, hctx]
    by_cases hma : a ∈ s.deps b
    · rw [if_pos hma]
      constructor
      · intro hc
        exact absurd rfl ((mem_removeAll b b (s.subs a)).mp hc).2
      · rintro (hc | hc) <;> exact absurd hc (List.not_mem_nil a)
    · rw [if_neg hma]
      rw [h a b, hctx]
      constructor
      · rintro (hc | hc)
        · exact absurd hc hma
        · exact absurd hc (List.not_mem_nil a)
      · rintro (hc | hc) <;> exact absurd hc (List.not_mem_nil a)
  · rw [hsubs]
    have hdb : (destroyNode id s).deps b = s.deps b := by
      rw [show (destroyNode id s).deps b =
        upd ((unsubAll .vB id (s.deps id) s).deps) id [] b from rfl,
        upd_other _ _ _ _ hb, unsubAll_deps]
    rw [hdb, congrFun (destroyNode_ctxDeps id s) b]
    by_cases hma : a ∈ s.deps id
    · rw [if_pos hma, mem_removeAll]
      constructor
      · rintro ⟨h1, _⟩
        exact (h a b).mp h1
      · intro hr
        exact ⟨(h a b).mpr hr, hb⟩
    · rw [if_neg hma]
      exact h a b

theorem GInv_at_rest (s : St) (hrest : ∀ n, s.ctxDeps n = []) :
    GInv s ↔ ∀ a b, a ∈ s.deps b ↔ b ∈ s.subs a := by
  constructor
  · intro h a b
    rw [h a b, hrest b]
    simp
  · intro h a b
    rw [← h a b, hrest b]
    simp

/-! ## Laziness: bounding computation runs per read -/

theorem evalExprWith_runCount_high (gv : Nat → St → Option Int × St)
    (rank : Nat → Nat) (r : Nat)
    (hgv : ∀ i t j, rank i < r → r ≤ rank j →
      ((gv i t).2).runCount j = t.runCount j) :
    ∀ (e : Expr) (s : St) (j : Nat), (∀ i ∈ readsOf e, rank i < r) →
      r ≤ rank j → ((evalExprWith gv e s).2).runCount j = s.runCount j := by
  intro e
  induction e with
  | lit n => intro s j _ _; rfl
  | throwE => intro s j _ _; rfl
  | readN i =>
    intro s j hreads hj
    exact hgv i s j (hreads i (List.mem_singleton.mpr rfl)) hj
  | add a b iha ihb =>
    intro s j hreads hj
    simp only [evalExprWith]
    refine exBind_pres (fun t => t.runCount j = s.runCount j) _ _ ?_ ?_
    · exact iha s j
        (fun i hi => hreads i (List.mem_append.mpr (Or.inl hi))) hj
    · intro x t ht
      refine exBind_pres (fun u => u.runCount j = s.runCount j) _ _ ?_ ?_
      · exact (ihb t j
          (fun i hi => hreads i (List.mem_append.mpr (Or.inr hi))) hj).trans ht
      · intro y u hu
        exact hu
  | iteNZ c t e ihc iht ihe =>
    intro s j hreads hj
    simp only [evalExprWith]
    refine exBind_pres (fun u => u.runCount j = s.runCount j) _ _ ?_ ?_
    · exact ihc s j (fun i hi => hreads i
        (List.mem_append.mpr (Or.inl (List.mem_append.mpr (Or.inl hi))))) hj
    · intro x u hu
      by_cases hx : x ≠ 0
      · simp only [if_pos hx]
        exact (iht u j (fun i hi => hreads i
          (List.mem_append.mpr (Or.inl (List.mem_append.mpr (Or.inr hi))))) hj).trans hu
      · simp only [if_neg hx]
        exact (ihe u j (fun i hi => hreads i
          (List.mem_append.mpr (Or.inr hi))) hj).trans hu

theorem getValueAny_runCount_high (V : Variant) (env : Nat → Kind)
    (rank : Nat → Nat) (hr : RankedEnv env rank) :
    ∀ (fuel r i : Nat) (s : St) (j : Nat), rank i < r → r ≤ rank j →
      ((getValueAny V env fuel i s).2).runCount j = s.runCount j := by
  intro fuel
  induction fuel with
  | zero => intro r i s j _ _; rfl
  | succ fuel ih =>
    intro r i s j hi hj
    rcases hex : env i with _ | b | b <;> simp only [getValueAny, hex]
    · exact congrFun (addAsSub_runCount V i s) j
    · split
      · refine exBind_pres (fun t => t.runCount j = s.runCount j) _ _ ?_ ?_
        · have hne : i ≠ j := by
            intro hij
            subst hij
            exact absurd (Nat.lt_of_lt_of_le hi hj) (Nat.lt_irrefl _)
          have hev : ∀ t, ((evalExprWith (getValueAny V env fuel) b t).2).runCount j
              = t.runCount j := by
            intro t
            refine evalExprWith_runCount_high (getValueAny V env fuel) rank
              (rank i) (fun x u y hx hy => ih (rank i) x u y hx hy) b t j ?_ ?_
            · intro x hx
              exact hr i x (by rw [hex]; exact hx)
            · exact Nat.le_of_lt (Nat.lt_of_lt_of_le hi hj)
          have h1 := computeWith_runCount_other V
            (evalExprWith (getValueAny V env fuel)) i b (addAsSub V i s) j hne hev
          exact h1.trans (congrFun (addAsSub_runCount V i s) j)
        · intro v t ht
          exact ht
      · exact congrFun (addAsSub_runCount V i s) j

theorem computeWith_runCount_self (V : Variant)
    (ev : Expr → St → Option Int × St) (id : Nat) (b : Expr) (s : St)
    (hev : ∀ t, ((ev b t).2).runCount id = t.runCount id) :
    ((computeWith V ev id b s).2).runCount id = s.runCount id + 1 := by
  simp only [computeWith]
  refine exBind_pres (fun t => t.runCount id = s.runCount id + 1) _ _ ?_ ?_
  · exact (hev _).trans (upd_same s.runCount id (s.runCount id + 1))
  · intro v t ht
    show (reconcile V id t).runCount id = s.runCount id + 1
    rw [reconcile_runCount]
    exact ht

theorem getValueAny_runs_at_most_once (V : Variant) (env : Nat → Kind)
    (rank : Nat → Nat) (hr : RankedEnv env rank) (fuel i : Nat) (b : Expr)
    (s : St) (hi : env i = Kind.computed b) :
    ((getValueAny V env fuel i s).2).runCount i ≤ s.runCount i + 1 := by
  cases fuel with
  | zero => exact Nat.le_succ _
  | succ fuel =>
    simp only [getValueAny, hi]
    split
    · refine exBind_pres (fun t => t.runCount i ≤ s.runCount i + 1) _ _ ?_ ?_
      · have hev : ∀ t,
            ((evalExprWith (getValueAny V env fuel) b t).2).runCount i
              = t.runCount i := by
          intro t
          refine evalExprWith_runCount_high (getValueAny V env fuel) rank
            (rank i)
            (fun x u y hx hy => getValueAny_runCount_high V env rank hr fuel
              (rank i) x u y hx hy) b t i ?_ (Nat.le_refl _)
          intro x hx
          exact hr i x (by rw [hi]; exact hx)
        have h1 := computeWith_runCount_self V
          (evalExprWith (getValueAny V env fuel)) i b (addAsSub V i s) hev
        exact Nat.le_of_eq (h1.trans
          (congrArg (fun n => n + 1) (congrFun (addAsSub_runCount V i s) i)))
      · intro v t ht
        exact ht
    · exact Nat.le_trans
        (Nat.le_of_eq (congrFun (addAsSub_runCount V i s) i)) (Nat.le_succ _)

/-! ## Remaining helper lemmas for the claims -/

theorem guard_of_destroyed (s : St) (id : Nat) (h : s.destroyed id = true) :
    effectGuard .vB s id = true := by
  simp [effectGuard, h]

theorem setValue_keep_destroyed (env : Nat → Kind) (id fuel x : Nat)
    (v : Int) (s : St) (h : s.destroyed id = true) :
    (setValue .vB env fuel x v s).destroyed id = true ∧
    countOcc id (setValue .vB env fuel x v s).queue = countOcc id s.queue := by
  unfold setValue
  refine foldl_pres
    (fun t => t.destroyed id = true ∧
      countOcc id t.queue = countOcc id s.queue) _ ?_ _ _ ⟨h, rfl⟩
  intro t y ⟨ht, hc⟩
  refine ⟨?_, (markDirty_keep_destroyed env id fuel y t ht).trans hc⟩
  rw [markDirty_destroyed]
  exact ht

theorem signalSet_keep_destroyed (equal : Int → Int → Bool)
    (env : Nat → Kind) (id fuel x : Nat) (v : Int) (s : St)
    (h : s.destroyed id = true) :
    (signalSet equal .vB env fuel x v s).destroyed id = true ∧
    countOcc id (signalSet equal .vB env fuel x v s).queue = countOcc id s.queue := by
  simp only [signalSet]
  have ha : (addAsSub .vB x s).destroyed id = true := by
    rw [addAsSub_destroyed]; exact h
  have hq : countOcc id (addAsSub .vB x s).queue = countOcc id s.queue := by
    rw [addAsSub_queue]
  split
  · exact ⟨ha, hq⟩
  · obtain ⟨h1, h2⟩ := setValue_keep_destroyed env id fuel x v (addAsSub .vB x s) ha
    exact ⟨h1, h2.trans hq⟩

theorem applyWrites_keep_destroyed (env : Nat → Kind) (id fuel : Nat)
    (ws : List (Nat × Int)) (s : St) (h : s.destroyed id = true) :
    (applyWrites .vB env fuel ws s).destroyed id = true ∧
    countOcc id (applyWrites .vB env fuel ws s).queue = countOcc id s.queue := by
  unfold applyWrites
  refine foldl_pres
    (fun t => t.destroyed id = true ∧
      countOcc id t.queue = countOcc id s.queue) _ ?_ _ _ ⟨h, rfl⟩
  intro t w ⟨ht, hc⟩
  obtain ⟨h1, h2⟩ := signalSet_keep_destroyed objectIs env id fuel w.1 w.2 t ht
  exact ⟨h1, h2.trans hc⟩

theorem countOcc_subscribeL_vB (l : List Nat) (sub : Nat)
    (h : countOcc sub l ≤ 1) : countOcc sub (subscribeL .vB l sub) ≤ 1 := by
  by_cases hm : sub ∈ l
  · simp only [subscribeL, if_pos hm]
    exact h
  · simp only [subscribeL, if_neg hm]
    rw [countOcc_append]
    have h0 : countOcc sub l = 0 := (countOcc_eq_zero sub l).mpr hm
    simp [countOcc, h0]

theorem subscribeIter_count (sub : Nat) :
    ∀ (n : Nat) (l : List Nat), countOcc sub l ≤ 1 →
      countOcc sub (subscribeIter sub n l) ≤ 1 := by
  intro n
  induction n with
  | zero => intro l h; exact h
  | succ n ih =>
    intro l h
    exact countOcc_subscribeL_vB _ sub (ih l h)

theorem compute_context_some (V : Variant) (env : Nat → Kind)
    (fuel id : Nat) (b : Expr) (s : St) (v : Int)
    (hv : (compute V env fuel id b s).1 = some v) :
    ((compute V env fuel id b s).2).context = s.context := by
  simp only [compute, computeWith] at hv ⊢
  rcases hr : evalExpr V env fuel b { s with context := some id, runCount := upd s.runCount id (s.runCount id + 1) } with ⟨r, s₂⟩
  rw [hr] at hv
  cases r with
  | none => exact Option.noConfusion hv
  | some w => rfl

theorem compute_state_none (V : Variant) (env : Nat → Kind)
    (fuel id : Nat) (b : Expr) (s : St)
    (hv : (compute V env fuel id b s).1 = none) :
    (compute V env fuel id b s).2 =
      (evalExpr V env fuel b { s with context := some id, runCount := upd s.runCount id (s.runCount id + 1) }).2 := by
  simp only [compute, computeWith] at hv ⊢
  rcases hr : evalExpr V env fuel b { s with context := some id, runCount := upd s.runCount id (s.runCount id + 1) } with ⟨r, s₂⟩
  rw [hr] at hv
  cases r with
  | none => rfl
  | some w => exact Option.noConfusion hv

theorem flush_singleton_throw (V : Variant) (env : Nat → Kind)
    (fuel id : Nat) (b : Expr) (s : St) (hq : s.queue = [id])
    (henv : env id = Kind.effect b)
    (hthrow : (runEffect V env fuel id b { s with queue := [] }).1 = none) :
    (flush V env (fuel + 1) s).taskScheduled id = s.taskScheduled id ∧
    (flush V env (fuel + 1) s).queue = [] := by
  simp only [flush, hq, henv]
  have hisf : ((runEffect V env fuel id b { s with queue := [] }).1).isSome = false := by
    rw [hthrow]
    rfl
  rw [if_neg (by rw [hisf]; simp)]
  have hq2 : ((runEffect V env fuel id b { s with queue := [] }).2).queue = [] :=
    (runEffect_queue V env fuel id b { s with queue := [] }).trans rfl
  rw [flush_nilQ V env fuel _ hq2]
  exact ⟨congrFun (runEffect_taskScheduled V env fuel id b { s with queue := [] }) id, hq2⟩

theorem flush_singleton_normal (V : Variant) (env : Nat → Kind)
    (fuel id : Nat) (b : Expr) (s : St) (hq : s.queue = [id])
    (henv : env id = Kind.effect b)
    (hok : ((runEffect V env fuel id b { s with queue := [] }).1).isSome = true) :
    (flush V env (fuel + 1) s).taskScheduled id = false := by
  simp only [flush, hq, henv]
  rw [if_pos hok]
  have hq2 : ((runEffect V env fuel id b { s with queue := [] }).2).queue = [] :=
    (runEffect_queue V env fuel id b { s with queue := [] }).trans rfl
  generalize (runEffect V env fuel id b { s with queue := [] }).2 = u at hq2 ⊢
  have hq3 : ({ u with taskScheduled := upd u.taskScheduled id false } : St).queue = [] := hq2
  rw [flush_nilQ V env fuel _ hq3]
  exact upd_same _ _ _

theorem initSt_GInv (vals : Nat → Int) : GInv (initSt vals) := by
  intro a b
  simp [initSt]

theorem dEnv_ranked : RankedEnv dEnv dRank := by
  intro id i hi
  rcases id with _ | _ | _ | _ | n
  · simp [dEnv, kindReads] at hi
  · simp [dEnv, kindReads, readsOf] at hi
    subst hi
    decide
  · simp [dEnv, kindReads, readsOf] at hi
    subst hi
    decide
  · simp [dEnv, kindReads, readsOf] at hi
    rcases hi with rfl | rfl <;> decide
  · simp [dEnv, kindReads] at hi

/-! ## The claims -/

/-- C1: laziness and the diamond. (a) A write through `getter.set` never
runs any computation function: `signalSet` leaves the whole run counter map
unchanged, for any variant, environment and state. (b) For any acyclic
(ranked) dependency graph, one read of a derived node runs that node's
computation function at most once, from any state — in particular from any
state reached by any sequence of writes since the previous read.
(c) `markDirty` on an already-dirty derived node is a no-op, the mechanism
that prevents double recomputation in a diamond. (d) In the concrete
diamond A = 0, B = 1, C = 2, D = 3 (B, C read A; D reads B and C): after
the first read D's function has run once; a single write to A runs nothing;
the second read of D runs D's function exactly once more, not twice. -/
theorem c1_lazy_diamond :
    (∀ (equal : Int → Int → Bool) (V : Variant) (env : Nat → Kind)
      (fuel id : Nat) (v : Int) (s : St),
      (signalSet equal V env fuel id v s).runCount = s.runCount)
    ∧ (∀ (V : Variant) (env : Nat → Kind) (rank : Nat → Nat) (fuel i : Nat)
        (b : Expr) (s : St), RankedEnv env rank → env i = Kind.computed b →
        ((getValueAny V env fuel i s).2).runCount i ≤ s.runCount i + 1)
    ∧ (∀ (V : Variant) (env : Nat → Kind) (fuel id : Nat) (b : Expr) (s : St),
        env id = Kind.computed b → s.dirty id = true →
        markDirty V env (fuel + 1) id s = s)
    ∧ (dSt1.runCount 3 = 1 ∧ dSt2.runCount 3 = 1 ∧ dSt3.runCount 3 = 2) := by
  refine ⟨?_, ?_, ?_, ?_⟩
  · intro equal V env fuel id v s
    exact signalSet_runCount equal V env fuel id v s
  · intro V env rank fuel i b s hr hb
    exact getValueAny_runs_at_most_once V env rank hr fuel i b s hb
  · intro V env fuel id b s henv hd
    exact markDirty_computed_noop V env fuel id b s henv hd
  · refine ⟨by decide, by decide, by decide⟩

/-- C1 witness: the at-most-once and dirty-no-op parts of `c1_lazy_diamond`
instantiated on the concrete diamond graph after the write to A. -/
theorem c1_lazy_diamond_witness :
    (((getValueAny .vA dEnv 6 3 dSt2).2).runCount 3 ≤ dSt2.runCount 3 + 1)
    ∧ markDirty .vA dEnv 6 3 dSt2 = dSt2 :=
  ⟨c1_lazy_diamond.2.1 .vA dEnv dRank 6 3 (.add (.readN 1) (.readN 2)) dSt2
      dEnv_ranked rfl,
    c1_lazy_diamond.2.2.1 .vA dEnv 5 3 (.add (.readN 1) (.readN 2)) dSt2
      rfl (by decide)⟩

/-- C2: reaction coalescing. (a) Once an effect node's `taskScheduled` flag
is set, `markDirty` on it is a complete no-op — the state is unchanged, so
no second task is ever enqueued, in either variant. (b) End to end: from a
state in which the effect is scheduled with exactly one queued task, any
further synchronous writes in the same turn leave exactly one task, and the
next scheduling tick (`flush`) runs the effect's function exactly once. -/
theorem c2_effect_coalesce :
    (∀ (V : Variant) (env : Nat → Kind) (fuel id : Nat) (b : Expr) (s : St),
      env id = Kind.effect b → s.taskScheduled id = true →
      markDirty V env (fuel + 1) id s = s)
    ∧ (∀ (V : Variant) (env : Nat → Kind) (fuel fuel' id : Nat) (b : Expr)
        (ws : List (Nat × Int)) (s : St),
        env id = Kind.effect b → s.taskScheduled id = true →
        countOcc id s.queue = 1 →
        (applyWrites V env fuel ws s).queue.length ≤ fuel' →
        (flush V env fuel' (applyWrites V env fuel ws s)).runCount id =
          s.runCount id + 1) := by
  constructor
  · intro V env fuel id b s henv hsch
    exact markDirty_effect_noop V env fuel id b s henv
      (guard_of_scheduled V s id hsch)
  · intro V env fuel fuel' id b ws s henv hsch hcnt hlen
    obtain ⟨hs1, hc1⟩ := applyWrites_keep V env id fuel ws s hsch
    rw [flush_runCount V env id b henv fuel' _ hlen,
      congrFun (applyWrites_runCount V env fuel ws s) id, hc1, hcnt]

/-- C2 witness: in the concrete two-signal effect scenario, after one
effective write has scheduled the effect, a further `markDirty` is a no-op,
and two further same-turn writes still yield exactly one additional run at
the next tick. -/
theorem c2_effect_coalesce_witness :
    markDirty .vA eEnv 4 2 eSt3 = eSt3 ∧
    (flush .vA eEnv 3 (applyWrites .vA eEnv 4 [(1, 7), (0, 9)] eSt3)).runCount 2 =
      eSt3.runCount 2 + 1 :=
  ⟨c2_effect_coalesce.1 .vA eEnv 3 2 (.add (.readN 0) (.readN 1)) eSt3 rfl
      (by decide),
    c2_effect_coalesce.2 .vA eEnv 4 3 2 (.add (.readN 0) (.readN 1))
      [(1, 7), (0, 9)] eSt3 rfl (by decide) (by decide) (by decide)⟩

/-- C3: with the default `Object.is` equality, `getter.set(v)` where `v`
equals the current value performs no propagation: the stored value map, the
dirty map, the task queue and every scheduled flag are all exactly as
before (only the dependency-tracking of the internal `getValue` call can
differ, which is the separate frame effect of C10). In particular a
dependent effect is not scheduled. -/
theorem c3_equal_write_noop (V : Variant) (env : Nat → Kind) (fuel id : Nat)
    (v : Int) (s : St) (h : s.value id = v) :
    (signalSet objectIs V env fuel id v s).value = s.value ∧
    (signalSet objectIs V env fuel id v s).dirty = s.dirty ∧
    (signalSet objectIs V env fuel id v s).queue = s.queue ∧
    (signalSet objectIs V env fuel id v s).taskScheduled = s.taskScheduled := by
  simp only [signalSet]
  have hcond : objectIs ((addAsSub V id s).value id) v = true := by
    rw [congrFun (addAsSub_value V id s) id, h]
    simp [objectIs]
  rw [if_pos hcond]
  exact ⟨addAsSub_value V id s, addAsSub_dirty V id s, addAsSub_queue V id s,
    addAsSub_taskScheduled V id s⟩

/-- C3 witness: `Signal(1).set(1)` in the concrete effect scenario leaves
the dependent effect unscheduled — the queue and all scheduled flags
unchanged. -/
theorem c3_equal_write_noop_witness :
    (signalSet objectIs .vA eEnv 4 0 1 eSt2).queue = eSt2.queue ∧
    (signalSet objectIs .vA eEnv 4 0 1 eSt2).taskScheduled = eSt2.taskScheduled :=
  ⟨(c3_equal_write_noop .vA eEnv 4 0 1 eSt2 (by decide)).2.2.1,
    (c3_equal_write_noop .vA eEnv 4 0 1 eSt2 (by decide)).2.2.2⟩

/-- C4: effect destruction (the variant with `destroy`). (a) After
`destroy()`, the effect is absent from the subscriber list of every node it
formerly depended on. (b) Its dependency set is empty. (c) `markDirty` on a
destroyed effect is a complete no-op. (d) End to end: if the effect had no
pending queued run at destruction time, then after any sequence of
subsequent writes and a scheduling tick, its function has not run again —
its run counter is exactly what it was at destruction. -/
theorem c4_destroy_halts :
    (∀ (s : St) (id d : Nat), d ∈ s.deps id → id ∉ (destroyNode id s).subs d)
    ∧ (∀ (s : St) (id : Nat), (destroyNode id s).deps id = [])
    ∧ (∀ (env : Nat → Kind) (fuel id : Nat) (b : Expr) (s : St),
        env id = Kind.effect b → s.destroyed id = true →
        markDirty .vB env (fuel + 1) id s = s)
    ∧ (∀ (env : Nat → Kind) (fuel fuel' id : Nat) (b : Expr)
        (ws : List (Nat × Int)) (s : St),
        env id = Kind.effect b → countOcc id s.queue = 0 →
        (applyWrites .vB env fuel ws (destroyNode id s)).queue.length ≤ fuel' →
        (flush .vB env fuel'
          (applyWrites .vB env fuel ws (destroyNode id s))).runCount id =
          s.runCount id) := by
  refine ⟨?_, ?_, ?_, ?_⟩
  · intro s id d hd
    exact destroyNode_not_sub id d s hd
  · intro s id
    exact destroyNode_deps_self id s
  · intro env fuel id b s henv hdes
    exact markDirty_effect_noop .vB env fuel id b s henv
      (guard_of_destroyed s id hdes)
  · intro env fuel fuel' id b ws s henv hcnt hlen
    have hdes : (destroyNode id s).destroyed id = true :=
      destroyNode_destroyed_self id s
    have hq0 : countOcc id (destroyNode id s).queue = 0 := by
      rw [destroyNode_queue]
      exact hcnt
    obtain ⟨hd1, hc1⟩ := applyWrites_keep_destroyed env id fuel ws
      (destroyNode id s) hdes
    rw [flush_runCount .vB env id b henv fuel' _ hlen,
      congrFun (applyWrites_runCount .vB env fuel ws (destroyNode id s)) id,
      congrFun (destroyNode_runCount id s) id, hc1, hq0]
    exact Nat.add_zero _

/-- C4 witness: in the concrete variant-B effect scenario at rest, destroy
the effect, then write both former dependencies and flush: the effect never
runs again (and the no-op/emptiness conjuncts at the same state). -/
theorem c4_destroy_halts_witness :
    (2 ∉ (destroyNode 2 fSt2).subs 0) ∧
    (destroyNode 2 fSt2).deps 2 = [] ∧
    markDirty .vB eEnv 4 2 (destroyNode 2 fSt2) = destroyNode 2 fSt2 ∧
    (flush .vB eEnv 3
      (applyWrites .vB eEnv 4 [(0, 5), (1, 7)] (destroyNode 2 fSt2))).runCount 2 =
      fSt2.runCount 2 :=
  ⟨c4_destroy_halts.1 fSt2 2 0 (by decide),
    c4_destroy_halts.2.1 fSt2 2,
    c4_destroy_halts.2.2.1 eEnv 3 2 (.add (.readN 0) (.readN 1))
      (destroyNode 2 fSt2) rfl (by decide),
    c4_destroy_halts.2.2.2 eEnv 4 3 2 (.add (.readN 0) (.readN 1))
      [(0, 5), (1, 7)] fSt2 rfl (by decide) (by decide)⟩

/-- C5 counterexample: the claim fails on the `src/reactive/index.ts`
variant. In the conditional scenario, `Computed(() => b() ? x() + x() : 7)`
subscribes to X twice on the first (true-branch) evaluation because
`subscribe` adds a fresh weak reference per read; after `b.set(0)` and the
false-branch re-evaluation, X is dropped from the node's `deps` but
`unsubscribe` removes only one of the two references, so the node is NOT
removed from X's subscriber set and a subsequent write to X still marks it
dirty. -/
theorem c5_prune_cex :
    countOcc 2 (cSt1.subs 0) = 2 ∧
    (0 ∉ cSt3.deps 2) ∧
    (2 ∈ cSt3.subs 0) ∧
    (signalSet objectIs .vA cEnv 6 0 99 cSt3).dirty 2 = true := by
  refine ⟨by decide, by decide, by decide, by decide⟩

/-- C5 (amended): after reconciliation, a previous dependency that was not
read during the evaluation is always dropped from the node's `deps` (both
variants); the node is also removed from that dependency's subscriber set
in the deduplicating variant B unconditionally, and in variant A whenever
the subscriber list holds at most one reference to the node (in particular
when every dependency is read at most once per evaluation and no duplicate
references have accumulated); consequently, in the variant-B conditional
scenario the node stops being notified: after the false-branch evaluation
it is gone from X's subscribers and a write to X leaves it clean. -/
theorem c5_prune_amended :
    (∀ (V : Variant) (id d : Nat) (s : St), d ∈ s.deps id →
      d ∉ s.ctxDeps id → d ∉ (reconcile V id s).deps id)
    ∧ (∀ (id d : Nat) (s : St), d ∈ s.deps id → d ∉ s.ctxDeps id →
      id ∉ (reconcile .vB id s).subs d)
    ∧ (∀ (V : Variant) (id d : Nat) (s : St), d ∈ s.deps id →
      d ∉ s.ctxDeps id → countOcc id (s.subs d) ≤ 1 →
      id ∉ (reconcile V id s).subs d)
    ∧ ((2 ∉ bSt3.subs 0) ∧ (0 ∉ bSt3.deps 2) ∧
      (signalSet objectIs .vB cEnv 6 0 99 bSt3).dirty 2 = false) := by
  refine ⟨?_, ?_, ?_, by decide, by decide, by decide⟩
  · intro V id d s hd hnc
    exact reconcile_drops_dep V id d s hd hnc
  · intro id d s hd hnc
    exact reconcile_unsubscribes_vB id d s hd hnc
  · intro V id d s hd hnc hcnt
    exact reconcile_unsubscribes V id d s hd hnc hcnt

/-- C5 witness: the three reconciliation conjuncts of `c5_prune_amended`
instantiated at the variant-B conditional scenario state, whose node 2
depends on X = 0 but whose `ctxDeps` are empty. -/
theorem c5_prune_amended_witness :
    (0 ∉ (reconcile .vA 2 bSt1).deps 2) ∧
    (2 ∉ (reconcile .vB 2 bSt1).subs 0) ∧
    (2 ∉ (reconcile .vA 2 bSt1).subs 0) :=
  ⟨c5_prune_amended.1 .vA 2 0 bSt1 (by decide) (by decide),
    c5_prune_amended.2.1 2 0 bSt1 (by decide) (by decide),
    c5_prune_amended.2.2.1 .vA 2 0 bSt1 (by decide) (by decide) (by decide)⟩

/-- C6 counterexample: on the `src/reactive/index.ts` variant the
subscriber/dependency edges are NOT mutually consistent at rest. In the
conditional scenario after the branch switch the system is at rest (no
evaluation context, `ctxDeps` clear), yet node 2 still appears in node 0's
subscriber list while 0 is no longer in node 2's dependency set. -/
theorem c6_inv_cex :
    cSt3.context = none ∧ cSt3.ctxDeps 0 = [] ∧ cSt3.ctxDeps 1 = [] ∧
    cSt3.ctxDeps 2 = [] ∧
    ¬ (∀ a b : Nat, a ∈ cSt3.deps b ↔ b ∈ cSt3.subs a) := by
  refine ⟨by decide, by decide, by decide, by decide, ?_⟩
  intro h
  have h1 := (h 0 2).mpr (by decide)
  exact absurd h1 (by decide)

/-- C6 (amended): in the deduplicating variant B the edge invariant holds.
The generalised invariant `GInv` (at rest it says exactly: A is in B's
dependency set iff B is in A's subscriber set) is preserved by every public
operation — tracked reads of any node, `getter.set` writes, dirty
propagation, the scheduling tick, and `destroy` at rest — and at rest
`GInv` is precisely the claimed biconditional. -/
theorem c6_inv_amended :
    (∀ (env : Nat → Kind) (fuel i : Nat) (s : St), GInv s →
      GInv ((getValueAny .vB env fuel i s).2))
    ∧ (∀ (equal : Int → Int → Bool) (env : Nat → Kind) (fuel id : Nat)
        (v : Int) (s : St), GInv s → GInv (signalSet equal .vB env fuel id v s))
    ∧ (∀ (env : Nat → Kind) (fuel id : Nat) (s : St), GInv s →
        GInv (markDirty .vB env fuel id s))
    ∧ (∀ (env : Nat → Kind) (fuel : Nat) (s : St), GInv s →
        GInv (flush .vB env fuel s))
    ∧ (∀ (id : Nat) (s : St), s.ctxDeps id = [] → GInv s →
        GInv (destroyNode id s))
    ∧ (∀ s : St, (∀ n, s.ctxDeps n = []) →
        (GInv s ↔ ∀ a b, a ∈ s.deps b ↔ b ∈ s.subs a)) := by
  refine ⟨?_, ?_, ?_, ?_, ?_, ?_⟩
  · intro env fuel i s h
    exact getValueAny_GInv_vB env fuel i s h
  · intro equal env fuel id v s h
    exact signalSet_GInv equal .vB env fuel id v s h
  · intro env fuel id s h
    exact markDirty_GInv .vB env fuel id s h
  · intro env fuel s h
    exact flush_GInv_vB env fuel s h
  · intro id s hctx h
    exact destroyNode_GInv id s hctx h
  · intro s hrest
    exact GInv_at_rest s hrest

/-- C6 witness: preservation of the invariant through a concrete variant-B
read of the conditional scenario's derived node, and through a concrete
destroy, both starting from a fresh (trivially consistent) state. -/
theorem c6_inv_amended_witness :
    GInv ((getValueAny .vB cEnv 6 2 (initSt cVals)).2) ∧
    GInv (destroyNode 2 (initSt cVals)) :=
  ⟨c6_inv_amended.1 cEnv 6 2 (initSt cVals) (initSt_GInv cVals),
    c6_inv_amended.2.2.2.2.1 2 (initSt cVals) rfl (initSt_GInv cVals)⟩

/-- C7 counterexample: the claim fails on the `src/reactive/index.ts`
variant, whose `subscribe` adds a fresh `WeakRef` on every call: two
subscribe calls for the same subscriber leave two references, and this is
reachable through the public API — in the conditional scenario the first
evaluation reads X twice and X's subscriber list holds node 2 twice. -/
theorem c7_dedup_cex :
    countOcc 7 (subscribeL .vA (subscribeL .vA [] 7) 7) = 2 ∧
    countOcc 2 (cSt1.subs 0) = 2 := by
  refine ⟨by decide, by decide⟩

/-- C7 (amended): in the deduplicating variant B, `subscribe` preserves the
at-most-one-reference property: a single call preserves it, and after any
number of `subscribe(sub)` calls for the same `sub`, the subscriber list
still holds at most one reference to `sub`. -/
theorem c7_dedup_amended :
    (∀ (l : List Nat) (sub : Nat), countOcc sub l ≤ 1 →
      countOcc sub (subscribeL .vB l sub) ≤ 1)
    ∧ (∀ (n : Nat) (l : List Nat) (sub : Nat), countOcc sub l ≤ 1 →
      countOcc sub (subscribeIter sub n l) ≤ 1) := by
  constructor
  · intro l sub h
    exact countOcc_subscribeL_vB l sub h
  · intro n l sub h
    exact subscribeIter_count sub n l h

/-- C7 witness: five variant-B subscribe calls for subscriber 7 starting
from the empty list leave at most one reference. -/
theorem c7_dedup_amended_witness :
    countOcc 7 (subscribeIter 7 5 []) ≤ 1 :=
  c7_dedup_amended.2 5 [] 7 (by decide)

/-- C8 counterexample: the evaluation context is NOT restored on abnormal
exit. `compute`/`runEffect` have no try/finally: with a computed node whose
function throws, reading it from a state whose context is `NONE` propagates
the exception and leaves the global context set to the inner node. -/
theorem c8_ctx_cex :
    (initSt (fun _ => 0)).context = none ∧
    ((getValueAny .vA tEnv 4 2 (initSt (fun _ => 0))).1 = none) ∧
    ((getValueAny .vA tEnv 4 2 (initSt (fun _ => 0))).2).context = some 2 := by
  refine ⟨by decide, by decide, by decide⟩

/-- C8 (amended): the context is restored to its prior value only on normal
completion of `compute`/`runEffect`. When the computation or effect
function throws, the entire post-body sequence — reconciliation, the
`ctxDeps` clear, and the context restore — is skipped: the resulting state
is exactly the state the aborted body evaluation left behind, with the
context still set to an inner node rather than the prior value. -/
theorem c8_ctx_amended :
    (∀ (V : Variant) (env : Nat → Kind) (fuel id : Nat) (b : Expr) (s : St)
      (v : Int), (compute V env fuel id b s).1 = some v →
      ((compute V env fuel id b s).2).context = s.context)
    ∧ (∀ (V : Variant) (env : Nat → Kind) (fuel id : Nat) (b : Expr) (s : St),
      (compute V env fuel id b s).1 = none →
      (compute V env fuel id b s).2 =
        (evalExpr V env fuel b { s with context := some id, runCount := upd s.runCount id (s.runCount id + 1) }).2)
    ∧ (∀ (V : Variant) (env : Nat → Kind) (fuel id : Nat) (b : Expr) (s : St)
      (v : Int), (runEffect V env fuel id b s).1 = some v →
      ((runEffect V env fuel id b s).2).context = s.context)
    ∧ (∀ (V : Variant) (env : Nat → Kind) (fuel id : Nat) (b : Expr) (s : St),
      (runEffect V env fuel id b s).1 = none →
      (runEffect V env fuel id b s).2 =
        (evalExpr V env fuel b { s with context := some id, runCount := upd s.runCount id (s.runCount id + 1) }).2) := by
  refine ⟨?_, ?_, ?_, ?_⟩
  · intro V env fuel id b s v hv
    exact compute_context_some V env fuel id b s v hv
  · intro V env fuel id b s hv
    exact compute_state_none V env fuel id b s hv
  · intro V env fuel id b s v hv
    exact compute_context_some V env fuel id b s v hv
  · intro V env fuel id b s hv
    exact compute_state_none V env fuel id b s hv

/-- C8 witness: a successful concrete compute restores the context, and a
throwing concrete compute leaves exactly the aborted body-evaluation
state. -/
theorem c8_ctx_amended_witness :
    ((compute .vA dEnv 5 1 (.readN 0) (initSt (fun _ => 1))).2).context =
      (initSt (fun _ => 1)).context ∧
    (compute .vA tEnv 4 2 .throwE (initSt (fun _ => 0))).2 =
      (evalExpr .vA tEnv 4 .throwE { initSt (fun _ => 0) with context := some 2, runCount := upd (initSt (fun _ => 0)).runCount 2 ((initSt (fun _ => 0)).runCount 2 + 1) }).2 :=
  ⟨c8_ctx_amended.1 .vA dEnv 5 1 (.readN 0) (initSt (fun _ => 1)) 1 (by decide),
    c8_ctx_amended.2.1 .vA tEnv 4 2 .throwE (initSt (fun _ => 0)) (by decide)⟩

/-- C9 counterexample: when the effect function throws during its deferred
run, the `taskScheduled` flag is NOT cleared. In the concrete throwing
effect scenario the deferred run leaves the flag set with an empty queue;
a subsequent dependency change (`markDirty`) is then a guarded no-op that
enqueues nothing, and another tick never reruns the function — the failure
permanently blocks future reruns, contrary to the claim. -/
theorem c9_sched_flag_cex :
    gSt2.taskScheduled 0 = true ∧
    gSt2.queue = [] ∧
    gSt2.runCount 0 = 1 ∧
    (markDirty .vA gEnv 3 0 gSt2).queue = [] ∧
    (markDirty .vA gEnv 3 0 gSt2).taskScheduled 0 = true ∧
    (flush .vA gEnv 3 (markDirty .vA gEnv 3 0 gSt2)).runCount 0 = 1 := by
  refine ⟨by decide, by decide, by decide, by decide, by decide, by decide⟩

/-- C9 (amended): the deferred task is
`() => { runEffect(); taskScheduled = false; }`, so the flag is cleared
exactly when `runEffect` returns normally. Flushing a queue holding just
this effect: on a throwing run the flag is left as it was (still set) with
the queue drained; on a normal run the flag is cleared; and while the flag
is set every further `markDirty` on the effect is a no-op, so a throwing
run permanently blocks rescheduling. -/
theorem c9_sched_flag_amended :
    (∀ (V : Variant) (env : Nat → Kind) (fuel id : Nat) (b : Expr) (s : St),
      s.queue = [id] → env id = Kind.effect b →
      (runEffect V env fuel id b { s with queue := [] }).1 = none →
      (flush V env (fuel + 1) s).taskScheduled id = s.taskScheduled id ∧
      (flush V env (fuel + 1) s).queue = [])
    ∧ (∀ (V : Variant) (env : Nat → Kind) (fuel id : Nat) (b : Expr) (s : St),
      s.queue = [id] → env id = Kind.effect b →
      ((runEffect V env fuel id b { s with queue := [] }).1).isSome = true →
      (flush V env (fuel + 1) s).taskScheduled id = false)
    ∧ (∀ (V : Variant) (env : Nat → Kind) (fuel id : Nat) (b : Expr) (s : St),
      env id = Kind.effect b → s.taskScheduled id = true →
      markDirty V env (fuel + 1) id s = s) := by
  refine ⟨?_, ?_, ?_⟩
  · intro V env fuel id b s hq henv hthrow
    exact flush_singleton_throw V env fuel id b s hq henv hthrow
  · intro V env fuel id b s hq henv hok
    exact flush_singleton_normal V env fuel id b s hq henv hok
  · intro V env fuel id b s henv hsch
    exact markDirty_effect_noop V env fuel id b s henv
      (guard_of_scheduled V s id hsch)

/-- C9 witness: the throwing-run conjunct at the concrete throwing effect
(flag survives the tick) and the normal-run conjunct at the concrete
two-signal effect (flag cleared by the tick). -/
theorem c9_sched_flag_amended_witness :
    ((flush .vA gEnv 3 gSt1).taskScheduled 0 = gSt1.taskScheduled 0 ∧
      (flush .vA gEnv 3 gSt1).queue = []) ∧
    (flush .vA eEnv 4 eSt3).taskScheduled 2 = false :=
  ⟨c9_sched_flag_amended.1 .vA gEnv 2 0 .throwE gSt1 (by decide) rfl (by decide),
    c9_sched_flag_amended.2.1 .vA eEnv 3 2 (.add (.readN 0) (.readN 1)) eSt3
      (by decide) rfl (by decide)⟩

/-- C10: frame effect of the equality gate. `getter.set(v)` obtains the
current value through the tracked `node.getValue()`, so when it is called
while some node E is being evaluated, the signal's node subscribes E and
registers itself in E's pending dependencies even when the equality check
then suppresses the write entirely. -/
theorem c10_tracked_set (equal : Int → Int → Bool) (V : Variant)
    (env : Nat → Kind) (fuel id E : Nat) (v : Int) (s : St)
    (hctx : s.context = some E) (heq : equal (s.value id) v = true) :
    E ∈ (signalSet equal V env fuel id v s).subs id ∧
    id ∈ (signalSet equal V env fuel id v s).ctxDeps E := by
  simp only [signalSet]
  have hval : (addAsSub V id s).value id = s.value id :=
    congrFun (addAsSub_value V id s) id
  rw [if_pos (by rw [hval]; exact heq)]
  simp only [addAsSub, hctx]
  constructor
  · show E ∈ upd s.subs id (subscribeL V (s.subs id) E) id
    rw [upd_same]
    exact self_mem_subscribeL V (s.subs id) E
  · show id ∈ upd s.ctxDeps E (setInsert (s.ctxDeps E) id) E
    rw [upd_same]
    exact self_mem_setInsert id (s.ctxDeps E)

/-- C10 witness: a suppressed `set(0)` on a signal holding 0, issued while
node 5 is the active evaluator, still subscribes node 5 to the signal and
records the signal in node 5's pending dependencies. -/
theorem c10_tracked_set_witness :
    5 ∈ (signalSet objectIs .vA (fun _ => Kind.writable) 3 0 0 wSt).subs 0 ∧
    0 ∈ (signalSet objectIs .vA (fun _ => Kind.writable) 3 0 0 wSt).ctxDeps 5 :=
  c10_tracked_set objectIs .vA (fun _ => Kind.writable) 3 0 5 0 wSt rfl (by decide)
